import Mathlib

/-!
The client-side interactivity of `js/main.js` (trustcareathome).

A shallow embedding of the field validator, the contact-form submit handler,
the toast notifier and the hero carousel of `src/js/main.js`, with the
properties the specification states about them.

Modelling conventions
* A JavaScript string is a Lean `String`; its characters are read through
  `String.data`.  The character classes the source uses (`\s`, `@`, `.`,
  `[0-9]`, `\D`) put both halves of a surrogate pair in the same class as the
  astral character they encode, so working on code points instead of UTF-16
  code units does not change any of the tests below.
* JavaScript numbers that hold integers are `Int`; `%` is the truncating
  remainder `Int.tmod`.  The source computes on double-precision numbers, on
  which sums of integers are exact while their magnitude stays within `2^53`;
  the embedding of an arithmetic expression is the expression of the source on
  that range, and what is proved about a number handed in from outside is
  stated on that range.
* Timers run on a virtual clock counted in milliseconds.
-/

namespace TrustCare

/-! ## JavaScript string primitives -/

/-- ECMAScript `WhiteSpace` and `LineTerminator` code points: the characters
removed by `String.prototype.trim` and matched by `\s`. -/
def isJSWhitespace (c : Char) : Bool :=
  let n := c.toNat
  n == 0x09 || n == 0x0A || n == 0x0B || n == 0x0C || n == 0x0D || n == 0x20 ||
  n == 0xA0 || n == 0x1680 || (0x2000 ≤ n && n ≤ 0x200A) || n == 0x2028 ||
  n == 0x2029 || n == 0x202F || n == 0x205F || n == 0x3000 || n == 0xFEFF

/-- The class `[0-9]`; its complement is `\D`. -/
def isJSDigit (c : Char) : Bool :=
  0x30 ≤ c.toNat && c.toNat ≤ 0x39

/-- `String.prototype.trim` on the character list of a string. -/
def jsTrim (s : List Char) : List Char :=
  ((s.dropWhile isJSWhitespace).reverse.dropWhile isJSWhitespace).reverse

/-- `value.replace(/\D/g, '')`: every non-digit is deleted. -/
def stripNonDigits (s : List Char) : List Char :=
  s.filter isJSDigit

/-! ## Regular expressions

The two patterns of `validateField` are anchored with `^` and `$`, so
`RegExp.prototype.test` is a whole-string match.  Patterns are kept as syntax
trees, matched by derivatives, and given an independent meaning by the
relation `Regex.Matches`. -/

/-- Syntax of the regular expressions used by the source. -/
inductive Regex where
  | empty : Regex
  | eps : Regex
  | cls (p : Char → Bool) : Regex
  | seq (r s : Regex) : Regex
  | alt (r s : Regex) : Regex
  | star (r : Regex) : Regex

namespace Regex

/-- Pattern `r+`. -/
def plus (r : Regex) : Regex := seq r (star r)

/-- Pattern `r{n}`. -/
def rep : Nat → Regex → Regex
  | 0, _ => eps
  | n + 1, r => seq r (rep n r)

/-- Whether the pattern accepts the empty string. -/
def nullable : Regex → Bool
  | empty => false
  | eps => true
  | cls _ => false
  | seq r s => nullable r && nullable s
  | alt r s => nullable r || nullable s
  | star _ => true

/-- Derivative of a pattern with respect to one character. -/
def deriv : Regex → Char → Regex
  | empty, _ => empty
  | eps, _ => empty
  | cls p, c => if p c then eps else empty
  | seq r s, c =>
      if nullable r then alt (seq (deriv r c) s) (deriv s c) else seq (deriv r c) s
  | alt r s, c => alt (deriv r c) (deriv s c)
  | star r, c => seq (deriv r c) (star r)

/-- Whole-string match, the result of `/^r$/.test(s)`. -/
def test (r : Regex) : List Char → Bool
  | [] => nullable r
  | c :: s => test (deriv r c) s

/-- Meaning of a pattern: the strings it denotes. -/
inductive Matches : Regex → List Char → Prop where
  | eps : Matches eps []
  | cls {p : Char → Bool} {c : Char} : p c = true → Matches (cls p) [c]
  | seq {r s : Regex} {a b : List Char} :
      Matches r a → Matches s b → Matches (seq r s) (a ++ b)
  | altL {r s : Regex} {a : List Char} : Matches r a → Matches (alt r s) a
  | altR {r s : Regex} {a : List Char} : Matches s a → Matches (alt r s) a
  | starNil {r : Regex} : Matches (star r) []
  | starCons {r : Regex} {a b : List Char} :
      Matches r a → Matches (star r) b → Matches (star r) (a ++ b)

end Regex

/-- A character that is neither white space nor `@`: the class `[^\s@]`. -/
def notSpaceAt (c : Char) : Bool :=
  !isJSWhitespace c && !(c == '@')

/-- The literal `@`. -/
def isAt (c : Char) : Bool := c == '@'

/-- The literal `\.`. -/
def isDot (c : Char) : Bool := c == '.'

/-- The pattern `/^[^\s@]+@[^\s@]+\.[^\s@]+$/` of `validateField`. -/
def emailRegex : Regex :=
  .seq (.plus (.cls notSpaceAt))
    (.seq (.cls isAt)
      (.seq (.plus (.cls notSpaceAt))
        (.seq (.cls isDot) (.plus (.cls notSpaceAt)))))

/-- The pattern `/^[0-9]{10}$/` of `validateField`. -/
def phoneRegex : Regex :=
  .rep 10 (.cls isJSDigit)

/-! ## Form fields and `validateField` -/

/-- The element `document.getElementById(field.id + 'Error')`: whether it
carries the class `show`, and its text. -/
structure ErrorElement where
  shown : Bool
  textContent : String
  deriving DecidableEq, Repr

/-- A form control as `validateField` and the submit handler see it. -/
structure Field where
  id : String
  type : String
  value : String
  required : Bool
  defaultValue : String
  borderColor : String
  deriving DecidableEq, Repr

/-- The local variables `isValid` and `errorMessage` of `validateField` when
the three checks have run (source lines 155 to 180).  The checks are three
consecutive `if` statements: a later one overwrites what an earlier one set. -/
def validateFieldChecks (field : Field) : Bool × String :=
  let s0 : Bool × String := (true, "")
  let s1 :=
    if field.required && jsTrim field.value.data == [] then
      (false, "This field is required")
    else s0
  let s2 :=
    if field.type == "email" && jsTrim field.value.data != [] then
      if !emailRegex.test field.value.data then
        (false, "Please enter a valid email address")
      else s1
    else s1
  let s3 :=
    if field.type == "tel" && jsTrim field.value.data != [] then
      if !phoneRegex.test (stripNonDigits field.value.data) then
        (false, "Please enter a valid 10-digit phone number")
      else s2
    else s2
  s3

/-- The elements of the document that can be found by identifier. -/
abbrev ErrorElements := String → Option ErrorElement

/-- Replace the element stored under one identifier. -/
def ErrorElements.set (els : ErrorElements) (key : String) (e : ErrorElement) :
    ErrorElements :=
  fun k => if k = key then some e else els k

/-- The function `validateField`: runs the checks, updates the error display
when the error element exists, and returns `isValid`. -/
def validateField (els : ErrorElements) (field : Field) :
    Bool × ErrorElements × Field :=
  let r := validateFieldChecks field
  match els (field.id ++ "Error") with
  | some _ =>
      if r.1 then
        (r.1, els.set (field.id ++ "Error") { shown := false, textContent := "" },
          { field with borderColor := "" })
      else
        (r.1, els.set (field.id ++ "Error") { shown := true, textContent := r.2 },
          { field with borderColor := "#ef4444" })
  | none => (r.1, els, field)

/-- The reference validator of the specification: the three rules in order,
the first failing rule decides, valid with an empty message otherwise. -/
def referenceValidate (field : Field) : Bool × String :=
  if field.required = true ∧ jsTrim field.value.data = [] then
    (false, "This field is required")
  else if field.type = "email" ∧ jsTrim field.value.data ≠ [] ∧
      emailRegex.test field.value.data = false then
    (false, "Please enter a valid email address")
  else if field.type = "tel" ∧ jsTrim field.value.data ≠ [] ∧
      (stripNonDigits field.value.data).length ≠ 10 then
    (false, "Please enter a valid 10-digit phone number")
  else (true, "")

/-! ## Hero carousel (`initHeroCarousel`) -/

/-- The constant `AUTO_PLAY_INTERVAL`, in milliseconds. -/
def AUTO_PLAY_INTERVAL : Nat := 5000

/-- A dot button: whether it carries the class `active`, and whether its
`aria-current` attribute is `'true'`. -/
structure Dot where
  active : Bool
  ariaCurrent : Bool
  deriving DecidableEq, Repr

/-- A pending `setInterval(next, AUTO_PLAY_INTERVAL)` timer of the window: its
handle and the instant of its next firing. -/
structure IntervalTimer where
  handle : Nat
  due : Nat
  deriving DecidableEq, Repr

/-- The closure state of `initHeroCarousel` together with the part of the
document and of the window it acts on.  `timers` lists the pending interval
timers in creation order, `nextHandle` is the handle the next `setInterval`
returns (handles are positive), `hasCarousel` records whether
`track.closest('.hero-carousel')` found an element. -/
structure Carousel where
  totalSlides : Nat
  currentIndex : Int
  autoPlayTimer : Option Nat
  dots : List Dot
  translatePercent : Int
  hasCarousel : Bool
  now : Nat
  timers : List IntervalTimer
  nextHandle : Nat
  deriving DecidableEq, Repr

namespace Carousel

/-- The `forEach((dot, i) => ...)` of `goToSlide`: dot `i` is active, and
current, exactly when `i === currentIndex`. -/
def renderDots (currentIndex : Int) : Nat → List Dot → List Dot
  | _, [] => []
  | i, _ :: rest =>
      { active := (i : Int) == currentIndex, ariaCurrent := (i : Int) == currentIndex } ::
        renderDots currentIndex (i + 1) rest

/-- The function `goToSlide(index)`.

The sum `index + totalSlides` is the sum of the source as long as its
magnitude is at most `2^53`, where the addition of doubles is exact; every
call the closure itself makes passes an index between `0` and `totalSlides`.
The remainder is exact on doubles.  The assignment to `track.style.transform`
writes the text `translateX(-k%)` with `k = currentIndex * 100`: for a
negative `currentIndex` that text reads `translateX(--100%)`, which is not a
transform, and the style keeps the value it had. -/
def goToSlide (c : Carousel) (index : Int) : Carousel :=
  let currentIndex := (index + (c.totalSlides : Int)).tmod (c.totalSlides : Int)
  { c with
    currentIndex := currentIndex
    translatePercent :=
      if 0 ≤ currentIndex then -(currentIndex * 100) else c.translatePercent
    dots := renderDots currentIndex 0 c.dots }

/-- The call `clearInterval(handle)`. -/
def clearInterval (c : Carousel) (handle : Nat) : Carousel :=
  { c with timers := c.timers.filter (fun t => t.handle != handle) }

/-- The call `setInterval(next, AUTO_PLAY_INTERVAL)`, paired with the handle it
returns. -/
def setInterval (c : Carousel) : Nat × Carousel :=
  (c.nextHandle,
    { c with
      timers := c.timers ++ [{ handle := c.nextHandle, due := c.now + AUTO_PLAY_INTERVAL }]
      nextHandle := c.nextHandle + 1 })

/-- The statement `if (autoPlayTimer) clearInterval(autoPlayTimer)`: `null` and
`0` are falsy. -/
def clearIfSet (c : Carousel) : Carousel :=
  match c.autoPlayTimer with
  | some (h + 1) => c.clearInterval (h + 1)
  | _ => c

/-- The function `resetAutoPlay()`. -/
def resetAutoPlay (c : Carousel) : Carousel :=
  let c1 := c.clearIfSet
  let r := c1.setInterval
  { r.2 with autoPlayTimer := some r.1 }

/-- The function `next()`. -/
def next (c : Carousel) : Carousel :=
  (c.goToSlide (c.currentIndex + 1)).resetAutoPlay

/-- The dots made by the `for` loop of the initializer, from index `i` on:
only dot `0` starts active. -/
def createDots : Nat → Nat → List Dot
  | _, 0 => []
  | i, n + 1 => { active := i == 0, ariaCurrent := i == 0 } :: createDots (i + 1) n

/-- The click listener of dot `i`; a dot that was never created has no
listener. -/
def dotClick (c : Carousel) (i : Nat) : Carousel :=
  if i < c.dots.length then (c.goToSlide (i : Int)).resetAutoPlay else c

/-- The `mouseenter` listener, attached only when the carousel element exists. -/
def mouseEnter (c : Carousel) : Carousel :=
  if c.hasCarousel then { c.clearIfSet with autoPlayTimer := none } else c

/-- The `mouseleave` listener, attached only when the carousel element exists. -/
def mouseLeave (c : Carousel) : Carousel :=
  if c.hasCarousel then
    let r := c.setInterval
    { r.2 with autoPlayTimer := some r.1 }
  else c

/-- One firing of the interval timer `handle`, if it is still pending: the
timer is re-armed one interval later and its callback `next` runs. -/
def fire (c : Carousel) (handle : Nat) : Carousel :=
  if c.timers.any (fun t => t.handle == handle) then
    next { c with
      timers := c.timers.map (fun t =>
        if t.handle == handle then { t with due := c.now + AUTO_PLAY_INTERVAL } else t) }
  else c

/-- The clock advances by one millisecond; the timers due at the new instant
fire in creation order. -/
def tickMs (c : Carousel) : Carousel :=
  let c1 := { c with now := c.now + 1 }
  ((c1.timers.filter (fun t => t.due == c1.now)).map (fun t => t.handle)).foldl fire c1

/-- The clock advances by `ms` milliseconds. -/
def elapse : Nat → Carousel → Carousel
  | 0, c => c
  | ms + 1, c => elapse ms (tickMs c)

end Carousel

/-- What can happen to the carousel once it is initialised. -/
inductive CarouselEvent where
  | elapse (ms : Nat)
  | dotClick (i : Nat)
  | mouseEnter
  | mouseLeave
  deriving DecidableEq, Repr

/-- Whether an event is a pointer-enter or a pointer-leave. -/
def CarouselEvent.isHover : CarouselEvent → Bool
  | .mouseEnter => true
  | .mouseLeave => true
  | _ => false

namespace Carousel

/-- The reaction of the carousel to one event. -/
def step (c : Carousel) : CarouselEvent → Carousel
  | .elapse ms => elapse ms c
  | .dotClick i => c.dotClick i
  | .mouseEnter => c.mouseEnter
  | .mouseLeave => c.mouseLeave

/-- The reaction of the carousel to a sequence of events. -/
def run (c : Carousel) (events : List CarouselEvent) : Carousel :=
  events.foldl step c

end Carousel

/-- The state `initHeroCarousel` leaves behind when it finds the track, the
dots container and at least one slide: slide `0`, one dot per slide made by
the `for` loop in a dots container that starts with no dot, and the autoplay
timer set by the first `resetAutoPlay()`. -/
def Carousel.initial (totalSlides : Nat) (hasCarousel : Bool) : Carousel :=
  Carousel.resetAutoPlay
    { totalSlides := totalSlides
      currentIndex := 0
      autoPlayTimer := none
      dots := Carousel.createDots 0 totalSlides
      translatePercent := 0
      hasCarousel := hasCarousel
      now := 0
      timers := []
      nextHandle := 1 }

/-- The function `initHeroCarousel`, on a page whose track and dots container
exist and whose track holds `totalSlides` slides.  With no slide the function
returns before it sets anything up. -/
def initHeroCarousel (totalSlides : Nat) (hasCarousel : Bool) : Option Carousel :=
  if totalSlides = 0 then none else some (Carousel.initial totalSlides hasCarousel)

/-- The slide invariant of the carousel with `N` slides: the current index is
in range and the dots are drawn for it. -/
def Carousel.SlideInv (N : Nat) (c : Carousel) : Prop :=
  c.totalSlides = N ∧ 0 ≤ c.currentIndex ∧ c.currentIndex < (N : Int) ∧
    c.dots = Carousel.renderDots c.currentIndex 0 (Carousel.createDots 0 N)

/-- The formula of the specification for the slide `goToSlide(i)` selects,
`((i mod N) + N) mod N`, read with the remainder of JavaScript. -/
def wrapIndex (i : Int) (N : Nat) : Int :=
  ((i.tmod (N : Int)) + (N : Int)).tmod (N : Int)

/-! ## Reference model of the autoplay countdown

The specification describes autoplay by a countdown: the next automatic
advance comes one interval after the most recent navigation, be it the
initialisation, an automatic advance or a dot click.  `Countdown` follows
these words; it has no timer handles. -/

/-- The countdown of the specification: the clock, the instant of the most
recent navigation and the current slide. -/
structure Countdown where
  slides : Nat
  now : Nat
  lastNavigation : Nat
  current : Int
  deriving DecidableEq, Repr

namespace Countdown

/-- Initialisation counts as a navigation to slide `0` at time `0`. -/
def initial (slides : Nat) : Countdown :=
  { slides := slides, now := 0, lastNavigation := 0, current := 0 }

/-- One millisecond passes; when the clock reaches one interval after the most
recent navigation the slide advances, which is itself a navigation. -/
def tickMs (a : Countdown) : Countdown :=
  if a.now + 1 = a.lastNavigation + AUTO_PLAY_INTERVAL then
    { a with
      now := a.now + 1
      lastNavigation := a.now + 1
      current := wrapIndex (a.current + 1) a.slides }
  else { a with now := a.now + 1 }

/-- The clock advances by `ms` milliseconds. -/
def elapse : Nat → Countdown → Countdown
  | 0, a => a
  | ms + 1, a => elapse ms (tickMs a)

/-- The countdown under one event; pointer events are outside this model. -/
def step (a : Countdown) : CarouselEvent → Countdown
  | .elapse ms => elapse ms a
  | .dotClick i =>
      if i < a.slides then { a with current := (i : Int), lastNavigation := a.now } else a
  | .mouseEnter => a
  | .mouseLeave => a

/-- The countdown under a sequence of events. -/
def run (a : Countdown) (events : List CarouselEvent) : Countdown :=
  events.foldl step a

end Countdown

/-- The carousel `c` realises the countdown `a`: same clock and slide, and a
single pending timer, the one `autoPlayTimer` names, due one interval after
the most recent navigation. -/
def Carousel.Realises (c : Carousel) (a : Countdown) : Prop :=
  c.totalSlides = a.slides ∧ 1 ≤ a.slides ∧ c.dots.length = a.slides ∧
  c.now = a.now ∧ c.currentIndex = a.current ∧
  0 ≤ a.current ∧ a.current < (a.slides : Int) ∧
  a.now < a.lastNavigation + AUTO_PLAY_INTERVAL ∧ 1 ≤ c.nextHandle ∧
  ∃ h : Nat, c.autoPlayTimer = some (h + 1) ∧
    c.timers = [{ handle := h + 1, due := a.lastNavigation + AUTO_PLAY_INTERVAL }]

/-! ## Toast notifications (`showSuccess`, `showError`) -/

/-- A notification `div` appended to the body.  `node` stands for the identity
of the element, `animation` for `style.animation`. -/
structure Notification where
  node : Nat
  textContent : String
  backgroundColor : String
  animation : String
  deriving DecidableEq, Repr

/-- What a pending `setTimeout` callback of the notifier does: the outer
callback starts the exit animation of its notification and schedules the inner
one, which removes the notification. -/
inductive TimeoutAction where
  | startExit (node : Nat)
  | remove (node : Nat)
  deriving DecidableEq, Repr

/-- The notification a callback acts on. -/
def TimeoutAction.node : TimeoutAction → Nat
  | .startExit node => node
  | .remove node => node

/-- A pending `setTimeout`: the instant it fires and its callback. -/
structure Timeout where
  due : Nat
  action : TimeoutAction
  deriving DecidableEq, Repr

/-- The part of the document and of the window the notifier acts on: the
notifications in the body, the number of `style[data-notification]` elements in
the head, the pending timeouts in creation order, the clock, and the identity
the next created element gets. -/
structure Page where
  now : Nat
  body : List Notification
  styleBlocks : Nat
  timeouts : List Timeout
  nextNode : Nat
  deriving DecidableEq, Repr

namespace Page

/-- The function `showSuccess(message)`. -/
def showSuccess (p : Page) (message : String) : Page :=
  { p with
    body := p.body ++
      [{ node := p.nextNode, textContent := message, backgroundColor := "#10b981",
         animation := "slideIn 0.3s ease" }]
    styleBlocks := if p.styleBlocks = 0 then p.styleBlocks + 1 else p.styleBlocks
    timeouts := p.timeouts ++ [{ due := p.now + 4000, action := .startExit p.nextNode }]
    nextNode := p.nextNode + 1 }

/-- The function `showError(message)`. -/
def showError (p : Page) (message : String) : Page :=
  { p with
    body := p.body ++
      [{ node := p.nextNode, textContent := message, backgroundColor := "#ef4444",
         animation := "slideIn 0.3s ease" }]
    timeouts := p.timeouts ++ [{ due := p.now + 5000, action := .startExit p.nextNode }]
    nextNode := p.nextNode + 1 }

/-- A timeout callback runs. -/
def runAction (p : Page) : TimeoutAction → Page
  | .startExit node =>
      { p with
        body := p.body.map (fun n =>
          if n.node = node then { n with animation := "slideOut 0.3s ease" } else n)
        timeouts := p.timeouts ++ [{ due := p.now + 300, action := .remove node }] }
  | .remove node =>
      { p with body := p.body.filter (fun n => n.node != node) }

/-- The clock advances by one millisecond; the timeouts due at the new instant
leave the pending list and run in creation order. -/
def tickMs (p : Page) : Page :=
  let due := p.timeouts.filter (fun t => t.due == p.now + 1)
  (due.map (fun t => t.action)).foldl runAction
    { p with now := p.now + 1, timeouts := p.timeouts.filter (fun t => t.due != p.now + 1) }

/-- The clock advances by `ms` milliseconds. -/
def elapse : Nat → Page → Page
  | 0, p => p
  | ms + 1, p => elapse ms (tickMs p)

/-- The texts of the elements of the body that are the notification `node`:
one text while the notification is in the document, none once it is removed. -/
def textsOf (p : Page) (node : Nat) : List String :=
  (p.body.filter (fun n => n.node == node)).map (fun n => n.textContent)

/-- The pending timeouts whose callback acts on the notification `node`. -/
def timeoutsOf (p : Page) (node : Nat) : List Timeout :=
  p.timeouts.filter (fun t => t.action.node == node)

/-- Element identities are handed out in increasing order: nothing in the page
refers to an element that is not created yet. -/
def Fresh (p : Page) : Prop :=
  (∀ n ∈ p.body, n.node < p.nextNode) ∧ (∀ t ∈ p.timeouts, t.action.node < p.nextNode)

/-- The life of the notification `node`, created at `t0` with display delay
`delay` and text `message`: shown until the delay runs out, then leaving for
300 ms with its removal pending, then gone. -/
def Lifetime (t0 delay node : Nat) (message : String) (p : Page) : Prop :=
  node < p.nextNode ∧
  ((p.now < t0 + delay ∧ p.textsOf node = [message] ∧
      p.timeoutsOf node = [{ due := t0 + delay, action := .startExit node }]) ∨
   (t0 + delay ≤ p.now ∧ p.now < t0 + delay + 300 ∧ p.textsOf node = [message] ∧
      p.timeoutsOf node = [{ due := t0 + delay + 300, action := .remove node }]) ∨
   (t0 + delay + 300 ≤ p.now ∧ p.textsOf node = [] ∧ p.timeoutsOf node = []))

end Page

/-- What can happen to the notifier. -/
inductive PageEvent where
  | showSuccess (message : String)
  | showError (message : String)
  | elapse (ms : Nat)
  deriving DecidableEq, Repr

namespace Page

/-- The page under one event. -/
def step (p : Page) : PageEvent → Page
  | .showSuccess m => p.showSuccess m
  | .showError m => p.showError m
  | .elapse ms => elapse ms p

/-- The page under a sequence of events. -/
def run (p : Page) (events : List PageEvent) : Page :=
  events.foldl step p

/-- A page on which the notifier has not run yet. -/
def fresh : Page :=
  { now := 0, body := [], styleBlocks := 0, timeouts := [], nextNode := 0 }

/-- The total time a sequence of events takes. -/
def duration : List PageEvent → Nat
  | [] => 0
  | .elapse ms :: rest => ms + duration rest
  | _ :: rest => duration rest

end Page

/-! ## Contact form (`initContactForm`, `handleFormSubmit`) -/

/-- The contact form: the controls matched by `'input, select, textarea'`, the
error elements of the document and the page the notifier writes to. -/
structure ContactForm where
  inputs : List Field
  errorElements : ErrorElements
  page : Page

/-- The confirmation `handleFormSubmit` shows. -/
def successMessage : String :=
  "Thank you for reaching out! We will contact you within 24 hours."

namespace ContactForm

/-- The loop `inputs.forEach(input => { if (!validateField(input)) isValid = false })`
of the submit listener: every control is validated, none is skipped. -/
def validateAll : ErrorElements → List Field → Bool → List Field →
    Bool × ErrorElements × List Field
  | els, [], isValid, done => (isValid, els, done.reverse)
  | els, input :: rest, isValid, done =>
      let r := validateField els input
      validateAll r.2.1 rest (if !r.1 then false else isValid) (r.2.2 :: done)

/-- The call `form.reset()` on one control: its value returns to the default
the markup gives it. -/
def resetField (f : Field) : Field :=
  { f with value := f.defaultValue }

/-- The function `handleFormSubmit(form)`: the confirmation is shown, the form
is reset and the border colours are cleared.  The record it logs is not kept. -/
def handleFormSubmit (form : ContactForm) : ContactForm :=
  { form with
    page := form.page.showSuccess successMessage
    inputs := (form.inputs.map resetField).map (fun f => { f with borderColor := "" }) }

/-- The `submit` listener of the contact form. -/
def submit (form : ContactForm) : ContactForm :=
  let r := validateAll form.errorElements form.inputs true []
  let validated : ContactForm := { form with errorElements := r.2.1, inputs := r.2.2 }
  if r.1 then handleFormSubmit validated else validated

end ContactForm

/-! ## Mobile menu (`initMobileMenu`) -/

/-- What `initMobileMenu` reads and writes: whether `navMenu` and
`hamburgerBtn` carry the class `active`, and the `aria-expanded` attribute of
`hamburgerBtn`. -/
structure MobileMenu where
  navMenuActive : Bool
  hamburgerActive : Bool
  ariaExpanded : String
  deriving DecidableEq, Repr

/-- Where a click lands: inside the hamburger button, on a `.nav-link` of the
menu, elsewhere inside the menu, or outside both. -/
inductive ClickTarget where
  | hamburger
  | navLink
  | menu
  | outside
  deriving DecidableEq, Repr

namespace ClickTarget

/-- The test `hamburgerBtn.contains(e.target)`. -/
def inHamburger : ClickTarget → Bool
  | .hamburger => true
  | _ => false

/-- The test `navMenu.contains(e.target)`; the links are looked up inside the
menu. -/
def inMenu : ClickTarget → Bool
  | .navLink => true
  | .menu => true
  | _ => false

end ClickTarget

namespace MobileMenu

/-- The closed state: no `active` class, `aria-expanded="false"`. -/
def closed : MobileMenu :=
  { navMenuActive := false, hamburgerActive := false, ariaExpanded := "false" }

/-- The three statements that close the menu. -/
def close (m : MobileMenu) : MobileMenu :=
  let m1 := { m with navMenuActive := false }
  let m2 := { m1 with hamburgerActive := false }
  { m2 with ariaExpanded := "false" }

/-- The `click` listener of the hamburger button. -/
def hamburgerListener (m : MobileMenu) : MobileMenu :=
  let isActive := m.navMenuActive
  if isActive then
    m.close
  else
    let m1 := { m with navMenuActive := true }
    let m2 := { m1 with hamburgerActive := true }
    { m2 with ariaExpanded := "true" }

/-- The `click` listener of every navigation link. -/
def navLinkListener (m : MobileMenu) : MobileMenu :=
  m.close

/-- The `click` listener of the document, reached by every click as it
bubbles up. -/
def documentListener (m : MobileMenu) (target : ClickTarget) : MobileMenu :=
  if !target.inHamburger && !target.inMenu then m.close else m

/-- One click: the listener on the way, if any, then the document listener. -/
def click (m : MobileMenu) (target : ClickTarget) : MobileMenu :=
  let m1 :=
    match target with
    | .hamburger => m.hamburgerListener
    | .navLink => m.navLinkListener
    | _ => m
  m1.documentListener target

/-- A sequence of clicks. -/
def clicks (m : MobileMenu) (targets : List ClickTarget) : MobileMenu :=
  targets.foldl click m

/-- The three indicators agree: all open or all closed. -/
def Agree (m : MobileMenu) : Prop :=
  m.hamburgerActive = m.navMenuActive ∧
    m.ariaExpanded = (if m.navMenuActive then "true" else "false")

end MobileMenu

/-! ## Theory of the pattern matcher -/

namespace Regex

theorem matches_nil_iff_nullable (r : Regex) : Matches r [] ↔ nullable r = true := by
  induction r with
  | empty => exact ⟨fun h => (by cases h), fun h => (by simp [nullable] at h)⟩
  | eps => exact ⟨fun _ => rfl, fun _ => Matches.eps⟩
  | cls p => exact ⟨fun h => (by cases h), fun h => (by simp [nullable] at h)⟩
  | seq r s ihr ihs =>
    constructor
    · intro h
      generalize hx : ([] : List Char) = x at h
      cases h with
      | seq ha hb =>
        rename_i a b
        have h2 := List.append_eq_nil.mp hx.symm
        obtain ⟨rfl, rfl⟩ := h2
        simp [nullable, ihr.mp ha, ihs.mp hb]
    · intro h
      simp [nullable] at h
      exact Matches.seq (ihr.mpr h.1) (ihs.mpr h.2)
  | alt r s ihr ihs =>
    constructor
    · intro h
      cases h with
      | altL h => simp [nullable, ihr.mp h]
      | altR h => simp [nullable, ihs.mp h]
    · intro h
      simp [nullable] at h
      rcases h with h | h
      · exact Matches.altL (ihr.mpr h)
      · exact Matches.altR (ihs.mpr h)
  | star r _ => exact ⟨fun _ => rfl, fun _ => Matches.starNil⟩

/-- A match of `star r` against a non-empty string starts with a non-empty match of `r`. -/
theorem star_cons_split {r : Regex} {x : List Char} (h : Matches (star r) x) :
    ∀ c s, x = c :: s → ∃ a b, s = a ++ b ∧ Matches r (c :: a) ∧ Matches (star r) b := by
  generalize hq : star r = q at h
  induction h with
  | eps => intro c s hx; cases hx
  | cls _ => cases hq
  | seq _ _ _ _ => cases hq
  | altL _ _ => cases hq
  | altR _ _ => cases hq
  | starNil => intro c s hx; cases hx
  | @starCons r' a b ha hb _ ihb =>
    cases hq
    intro c s hx
    cases a with
    | nil => exact ihb rfl c s (by simpa using hx)
    | cons a0 a' =>
      simp at hx
      obtain ⟨rfl, rfl⟩ := hx
      exact ⟨a', b, rfl, ha, hb⟩

theorem matches_deriv_iff (r : Regex) : ∀ (c : Char) (s : List Char),
    Matches (deriv r c) s ↔ Matches r (c :: s) := by
  induction r with
  | empty => intro c s; exact ⟨fun h => (by cases h), fun h => (by cases h)⟩
  | eps => intro c s; exact ⟨fun h => (by cases h), fun h => (by cases h)⟩
  | cls p =>
    intro c s
    constructor
    · intro h
      by_cases hp : p c = true
      · simp only [deriv, hp, if_true] at h
        cases h
        exact Matches.cls hp
      · simp only [deriv, hp] at h
        cases h
    · intro h
      cases h with
      | cls hp => simp only [deriv, hp, if_true]; exact Matches.eps
  | seq r s ihr ihs =>
    intro c x
    constructor
    · intro h
      by_cases hn : nullable r = true
      · simp only [deriv, hn, if_true] at h
        cases h with
        | altL h =>
          cases h with
          | seq ha hb =>
            exact Matches.seq ((ihr c _).mp ha) hb
        | altR h =>
          have := Matches.seq ((matches_nil_iff_nullable r).mpr hn) ((ihs c x).mp h)
          simpa using this
      · simp only [deriv, hn] at h
        cases h with
        | seq ha hb => exact Matches.seq ((ihr c _).mp ha) hb
    · intro h
      generalize hy : c :: x = y at h
      cases h with
      | seq ha hb =>
        rename_i a b
        cases a with
        | nil =>
          have hn := (matches_nil_iff_nullable r).mp ha
          simp only [deriv, hn, if_true]
          simp at hy
          subst hy
          exact Matches.altR ((ihs c x).mpr hb)
        | cons a0 a' =>
          simp at hy
          obtain ⟨rfl, rfl⟩ := hy
          have h1 := Matches.seq ((ihr c a').mpr ha) hb
          by_cases hn : nullable r = true
          · simp only [deriv, hn, if_true]; exact Matches.altL h1
          · simp only [deriv, hn]; exact h1
  | alt r s ihr ihs =>
    intro c x
    constructor
    · intro h
      cases h with
      | altL h => exact Matches.altL ((ihr c x).mp h)
      | altR h => exact Matches.altR ((ihs c x).mp h)
    · intro h
      cases h with
      | altL h => exact Matches.altL ((ihr c x).mpr h)
      | altR h => exact Matches.altR ((ihs c x).mpr h)
  | star r ih =>
    intro c x
    constructor
    · intro h
      cases h with
      | seq ha hb => exact Matches.starCons ((ih c _).mp ha) hb
    · intro h
      obtain ⟨a, b, rfl, ha, hb⟩ := star_cons_split h c x rfl
      exact Matches.seq ((ih c a).mpr ha) hb

theorem test_iff_matches (r : Regex) (s : List Char) : test r s = true ↔ Matches r s := by
  induction s generalizing r with
  | nil => exact (matches_nil_iff_nullable r).symm
  | cons c s ih => exact (ih (deriv r c)).trans (matches_deriv_iff r c s)

end Regex

namespace Regex

theorem matches_cls_iff (p : Char → Bool) (s : List Char) :
    Matches (cls p) s ↔ ∃ c, s = [c] ∧ p c = true := by
  constructor
  · intro h
    cases h with
    | @cls _ c hp => exact ⟨c, rfl, hp⟩
  · rintro ⟨c, rfl, hp⟩
    exact Matches.cls hp

theorem matches_seq_iff (r t : Regex) (s : List Char) :
    Matches (seq r t) s ↔ ∃ a b, s = a ++ b ∧ Matches r a ∧ Matches t b := by
  constructor
  · intro h
    cases h with
    | @seq _ _ a b ha hb => exact ⟨a, b, rfl, ha, hb⟩
  · rintro ⟨a, b, rfl, ha, hb⟩
    exact Matches.seq ha hb

theorem matches_star_cls_iff (p : Char → Bool) (s : List Char) :
    Matches (star (cls p)) s ↔ ∀ c ∈ s, p c = true := by
  induction s with
  | nil => exact ⟨fun _ c hc => (by cases hc), fun _ => Matches.starNil⟩
  | cons c s ih =>
    constructor
    · intro h
      obtain ⟨a, b, rfl, ha, hb⟩ := star_cons_split h c s rfl
      obtain ⟨d, hd, hp⟩ := (matches_cls_iff p _).mp ha
      simp at hd
      obtain ⟨rfl, rfl⟩ := hd
      intro x hx
      simp at hx
      rcases hx with rfl | hx
      · exact hp
      · exact ih.mp (by simpa using hb) x hx
    · intro h
      have h1 : Matches (cls p) [c] := Matches.cls (h c (by simp))
      have h2 : Matches (star (cls p)) s := ih.mpr (fun x hx => h x (by simp [hx]))
      exact Matches.starCons h1 h2

theorem matches_plus_cls_iff (p : Char → Bool) (s : List Char) :
    Matches (plus (cls p)) s ↔ s ≠ [] ∧ ∀ c ∈ s, p c = true := by
  unfold plus
  rw [matches_seq_iff]
  constructor
  · rintro ⟨a, b, rfl, ha, hb⟩
    obtain ⟨d, rfl, hp⟩ := (matches_cls_iff p _).mp ha
    refine ⟨by simp, ?_⟩
    intro x hx
    simp at hx
    rcases hx with rfl | hx
    · exact hp
    · exact (matches_star_cls_iff p b).mp hb x hx
  · rintro ⟨hne, h⟩
    cases s with
    | nil => exact absurd rfl hne
    | cons c s =>
      exact ⟨[c], s, rfl, Matches.cls (h c (by simp)),
        (matches_star_cls_iff p s).mpr (fun x hx => h x (by simp [hx]))⟩

theorem matches_rep_cls_iff (p : Char → Bool) (n : Nat) (s : List Char) :
    Matches (rep n (cls p)) s ↔ s.length = n ∧ ∀ c ∈ s, p c = true := by
  induction n generalizing s with
  | zero =>
    constructor
    · intro h
      cases h
      simp
    · rintro ⟨hl, _⟩
      have : s = [] := List.length_eq_zero.mp hl
      subst this
      exact Matches.eps
  | succ n ih =>
    show Matches (seq (cls p) (rep n (cls p))) s ↔ _
    rw [matches_seq_iff]
    constructor
    · rintro ⟨a, b, rfl, ha, hb⟩
      obtain ⟨d, rfl, hp⟩ := (matches_cls_iff p _).mp ha
      obtain ⟨hl, hall⟩ := (ih b).mp hb
      refine ⟨by simp [hl], ?_⟩
      intro x hx
      simp at hx
      rcases hx with rfl | hx
      · exact hp
      · exact hall x hx
    · rintro ⟨hl, h⟩
      cases s with
      | nil => simp at hl
      | cons c s =>
        refine ⟨[c], s, rfl, Matches.cls (h c (by simp)), (ih s).mpr ⟨?_, ?_⟩⟩
        · simpa using hl
        · exact fun x hx => h x (by simp [hx])

end Regex

/-- The strings denoted by the email pattern: `local@domain.tld` where the three
parts are non-empty and free of white space and `@`. -/
theorem matches_emailRegex_iff (s : List Char) :
    emailRegex.Matches s ↔
      ∃ a b c : List Char, s = a ++ '@' :: (b ++ '.' :: c) ∧
        a ≠ [] ∧ b ≠ [] ∧ c ≠ [] ∧
        (∀ x ∈ a, notSpaceAt x = true) ∧ (∀ x ∈ b, notSpaceAt x = true) ∧
        (∀ x ∈ c, notSpaceAt x = true) := by
  unfold emailRegex
  simp only [Regex.matches_seq_iff, Regex.matches_plus_cls_iff, Regex.matches_cls_iff]
  constructor
  · rintro ⟨a, _, rfl, ⟨ha, ha'⟩, _, _, rfl, ⟨x, rfl, hx⟩, b, _, rfl, ⟨hb, hb'⟩, _, c, rfl,
      ⟨y, rfl, hy⟩, hc, hc'⟩
    simp [isAt] at hx
    simp [isDot] at hy
    subst hx hy
    exact ⟨a, b, c, by simp, ha, hb, hc, ha', hb', hc'⟩
  · rintro ⟨a, b, c, rfl, ha, hb, hc, ha', hb', hc'⟩
    exact ⟨a, _, rfl, ⟨ha, ha'⟩, _, _, rfl, ⟨'@', rfl, by simp [isAt]⟩, b, _, rfl, ⟨hb, hb'⟩,
      _, c, rfl, ⟨'.', rfl, by simp [isDot]⟩, hc, hc'⟩

theorem phoneRegex_test_iff (s : List Char) :
    phoneRegex.test s = true ↔ s.length = 10 ∧ ∀ c ∈ s, isJSDigit c = true := by
  rw [Regex.test_iff_matches]
  exact Regex.matches_rep_cls_iff isJSDigit 10 s

theorem stripNonDigits_all (s : List Char) : ∀ c ∈ stripNonDigits s, isJSDigit c = true := by
  intro c hc
  exact (List.mem_filter.mp hc).2

theorem dropWhile_eq_nil_iff_all (p : Char → Bool) (s : List Char) :
    s.dropWhile p = [] ↔ ∀ c ∈ s, p c = true := by
  induction s with
  | nil => simp
  | cons a s ih =>
    by_cases h : p a = true
    · simp [List.dropWhile, h, ih]
    · simp [List.dropWhile, h]

/-- Trimming leaves nothing exactly when every character is white space. -/
theorem jsTrim_eq_nil_iff (s : List Char) :
    jsTrim s = [] ↔ ∀ c ∈ s, isJSWhitespace c = true := by
  unfold jsTrim
  rw [List.reverse_eq_nil_iff, dropWhile_eq_nil_iff_all]
  constructor
  · intro h
    have h2 : s.dropWhile isJSWhitespace = [] := by
      cases hd : s.dropWhile isJSWhitespace with
      | nil => rfl
      | cons a t =>
        have hne : s.dropWhile isJSWhitespace ≠ [] := by simp [hd]
        have ha := List.head_dropWhile_not isJSWhitespace s hne
        have hmem : (s.dropWhile isJSWhitespace).head hne ∈ (s.dropWhile isJSWhitespace).reverse :=
          List.mem_reverse.mpr (List.head_mem hne)
        have := h _ hmem
        simp [this] at ha
    exact (dropWhile_eq_nil_iff_all _ s).mp h2
  · intro h c hc
    have hc' := List.mem_reverse.mp hc
    exact h c ((List.dropWhile_sublist isJSWhitespace).subset hc')

/-! ## The field validator -/

theorem phoneRegex_test_strip_iff (s : List Char) :
    phoneRegex.test (stripNonDigits s) = true ↔ (stripNonDigits s).length = 10 := by
  rw [phoneRegex_test_iff]
  exact ⟨fun h => h.1, fun h => ⟨h, stripNonDigits_all s⟩⟩

theorem validateField_fst (els : ErrorElements) (field : Field) :
    (validateField els field).1 = (validateFieldChecks field).1 := by
  unfold validateField
  cases els (field.id ++ "Error") with
  | none => rfl
  | some e => by_cases h : (validateFieldChecks field).1 = true <;> simp [h]

theorem validateFieldChecks_snd_of_valid (field : Field)
    (h : (validateFieldChecks field).1 = true) : (validateFieldChecks field).2 = "" := by
  revert h
  unfold validateFieldChecks
  by_cases hr : field.required = true <;> by_cases hb : jsTrim field.value.data = [] <;>
    by_cases he : field.type = "email" <;> by_cases ht : field.type = "tel" <;>
    by_cases hm : emailRegex.test field.value.data = true <;>
    by_cases hp : phoneRegex.test (stripNonDigits field.value.data) = true <;>
    simp_all

theorem validateField_display (els : ErrorElements) (field : Field) :
    (validateField els field).2.1 (field.id ++ "Error") =
      (els (field.id ++ "Error")).map
        (fun _ => { shown := !(validateFieldChecks field).1,
                    textContent := (validateFieldChecks field).2 }) := by
  unfold validateField
  cases hel : els (field.id ++ "Error") with
  | none => simp [hel]
  | some e =>
    by_cases h : (validateFieldChecks field).1 = true
    · simp [h, ErrorElements.set, validateFieldChecks_snd_of_valid field h]
    · simp [h, ErrorElements.set]

theorem validateFieldChecks_eq_reference (field : Field) :
    validateFieldChecks field = referenceValidate field := by
  have hph := phoneRegex_test_strip_iff field.value.data
  unfold validateFieldChecks referenceValidate
  by_cases hr : field.required = true <;> by_cases hb : jsTrim field.value.data = [] <;>
    by_cases he : field.type = "email" <;> by_cases ht : field.type = "tel" <;>
    by_cases hm : emailRegex.test field.value.data = true <;>
    by_cases hp : phoneRegex.test (stripNonDigits field.value.data) = true <;>
    simp_all

/-- C1. For every field snapshot, the validity and the message `validateField`
computes equal those of the reference validator, which tries the three rules in
order and stops at the first that fails; the value `validateField` returns is
that validity, and the error element, when the document has one, ends up shown
exactly when the reference says invalid, carrying the reference message. -/
theorem validateField_refines_reference (els : ErrorElements) (field : Field) :
    validateFieldChecks field = referenceValidate field ∧
    (validateField els field).1 = (referenceValidate field).1 ∧
    (validateField els field).2.1 (field.id ++ "Error") =
      (els (field.id ++ "Error")).map
        (fun _ => { shown := !(referenceValidate field).1,
                    textContent := (referenceValidate field).2 }) := by
  refine ⟨validateFieldChecks_eq_reference field, ?_, ?_⟩
  · rw [validateField_fst, validateFieldChecks_eq_reference]
  · rw [validateField_display, validateFieldChecks_eq_reference]

/-- A value is blank when every character of it is white space. -/
theorem jsTrim_ne_nil_iff (s : List Char) :
    jsTrim s ≠ [] ↔ ∃ c ∈ s, isJSWhitespace c = false := by
  rw [Ne, jsTrim_eq_nil_iff]
  simp

theorem validateFieldChecks_blank (field : Field)
    (hb : jsTrim field.value.data = []) :
    validateFieldChecks field =
      if field.required then (false, "This field is required") else (true, "") := by
  unfold validateFieldChecks
  by_cases hr : field.required = true <;> simp [hb, hr]

theorem validateFieldChecks_tel (field : Field) (ht : field.type = "tel")
    (hb : jsTrim field.value.data ≠ []) :
    (validateFieldChecks field).1 = phoneRegex.test (stripNonDigits field.value.data) := by
  unfold validateFieldChecks
  by_cases hp : phoneRegex.test (stripNonDigits field.value.data) = true <;>
    simp_all

theorem validateFieldChecks_email (field : Field) (ht : field.type = "email")
    (hb : jsTrim field.value.data ≠ []) :
    (validateFieldChecks field).1 = emailRegex.test field.value.data := by
  unfold validateFieldChecks
  by_cases hp : emailRegex.test field.value.data = true <;>
    simp_all

/-- A string the email pattern denotes is not blank. -/
theorem jsTrim_ne_nil_of_matches_email (s : List Char) (h : emailRegex.Matches s) :
    jsTrim s ≠ [] := by
  rw [jsTrim_ne_nil_iff]
  obtain ⟨a, b, c, rfl, -⟩ := (matches_emailRegex_iff s).mp h
  exact ⟨'@', by simp, by decide⟩

/-- C2 (as amended). For a telephone field whose value holds at least one
character that is not white space, `validateField` returns valid exactly when
the value with every non-digit removed is ten characters long, all of them
digits. -/
theorem validateField_tel_iff (els : ErrorElements) (field : Field)
    (ht : field.type = "tel")
    (hb : ∃ c ∈ field.value.data, isJSWhitespace c = false) :
    (validateField els field).1 = true ↔
      (stripNonDigits field.value.data).length = 10 ∧
        ∀ c ∈ stripNonDigits field.value.data, isJSDigit c = true := by
  rw [validateField_fst, validateFieldChecks_tel field ht ((jsTrim_ne_nil_iff _).mpr hb),
    phoneRegex_test_iff]

/-- Witness for C2: the three values of the specification. -/
theorem validateField_tel_iff_witness :
    ((validateField (fun _ => none) ⟨"phone", "tel", "98765-43210", true, "", ""⟩).1 = true ↔
      (stripNonDigits "98765-43210".data).length = 10 ∧
        ∀ c ∈ stripNonDigits "98765-43210".data, isJSDigit c = true) ∧
    (validateField (fun _ => none) ⟨"phone", "tel", "98765-43210", true, "", ""⟩).1 = true ∧
    (validateField (fun _ => none) ⟨"phone", "tel", "12345", true, "", ""⟩).1 = false ∧
    (validateField (fun _ => none) ⟨"phone", "tel", "123456789012", true, "", ""⟩).1 = false :=
  ⟨validateField_tel_iff (fun _ => none) ⟨"phone", "tel", "98765-43210", true, "", ""⟩ rfl
      ⟨'9', by decide, by decide⟩,
    by decide, by decide, by decide⟩

/-- Counterexample to C2 as stated: an optional telephone field left empty is
valid, although its value stripped of non-digits has no digit at all. -/
theorem validateField_tel_empty_valid :
    (validateField (fun _ => none) ⟨"phone", "tel", "", false, "", ""⟩).1 = true ∧
      (stripNonDigits "".data).length ≠ 10 := by
  decide

/-- C3 (as amended). For an email field, a value the pattern denotes is valid;
a value the pattern does not denote is invalid as soon as it holds one character
that is not white space. -/
theorem validateField_email_matches (els : ErrorElements) (field : Field)
    (ht : field.type = "email") :
    (emailRegex.Matches field.value.data → (validateField els field).1 = true) ∧
    (¬ emailRegex.Matches field.value.data →
      (∃ c ∈ field.value.data, isJSWhitespace c = false) →
      (validateField els field).1 = false) := by
  constructor
  · intro hm
    rw [validateField_fst, validateFieldChecks_email field ht
      (jsTrim_ne_nil_of_matches_email _ hm)]
    exact (Regex.test_iff_matches _ _).mpr hm
  · intro hm hb
    rw [validateField_fst, validateFieldChecks_email field ht ((jsTrim_ne_nil_iff _).mpr hb)]
    cases h : emailRegex.test field.value.data with
    | false => rfl
    | true => exact absurd ((Regex.test_iff_matches _ _).mp h) hm

/-- Witness for C3. -/
theorem validateField_email_matches_witness :
    (emailRegex.Matches "care@home.in".data →
      (validateField (fun _ => none) ⟨"email", "email", "care@home.in", true, "", ""⟩).1 = true) ∧
    (¬ emailRegex.Matches "care@home.in".data →
      (∃ c ∈ "care@home.in".data, isJSWhitespace c = false) →
      (validateField (fun _ => none) ⟨"email", "email", "care@home.in", true, "", ""⟩).1 = false) :=
  validateField_email_matches (fun _ => none) ⟨"email", "email", "care@home.in", true, "", ""⟩ rfl

/-- Counterexample to C3 as stated: the empty string is not denoted by the
pattern, yet an optional email field holding it is valid. -/
theorem validateField_email_empty_valid :
    ¬ emailRegex.Matches "".data ∧
      (validateField (fun _ => none) ⟨"email", "email", "", false, "", ""⟩).1 = true := by
  refine ⟨fun h => ?_, by decide⟩
  have := (Regex.test_iff_matches _ _).mpr h
  revert this
  decide

/-- C4. A field of any type whose value is empty or made of white space only
is valid exactly when it is not required; when it is required the result is
invalid, the message is the required-field message, and the error element, if
the document has one, shows it. -/
theorem validateField_blank (els : ErrorElements) (field : Field)
    (hb : ∀ c ∈ field.value.data, isJSWhitespace c = true) :
    ((validateField els field).1 = true ↔ field.required = false) ∧
    (field.required = true →
      (validateField els field).1 = false ∧
      validateFieldChecks field = (false, "This field is required") ∧
      (validateField els field).2.1 (field.id ++ "Error") =
        (els (field.id ++ "Error")).map
          (fun _ => { shown := true, textContent := "This field is required" })) := by
  have hc := validateFieldChecks_blank field ((jsTrim_eq_nil_iff _).mpr hb)
  rw [validateField_fst, validateField_display, hc]
  cases hr : field.required <;> simp

/-- Witness for C4: a required text field holding a space, a tab and a
no-break space. -/
theorem validateField_blank_witness :
    ((validateField (fun _ => none) ⟨"name", "text", " \t\u00a0", true, "", ""⟩).1 = true ↔
      true = false) ∧
    (true = true →
      (validateField (fun _ => none) ⟨"name", "text", " \t\u00a0", true, "", ""⟩).1 = false ∧
      validateFieldChecks ⟨"name", "text", " \t\u00a0", true, "", ""⟩ =
        (false, "This field is required") ∧
      (validateField (fun _ => none) ⟨"name", "text", " \t\u00a0", true, "", ""⟩).2.1
          ("name" ++ "Error") =
        (none : Option ErrorElement).map
          (fun _ => { shown := true, textContent := "This field is required" })) :=
  validateField_blank (fun _ => none) ⟨"name", "text", " \t\u00a0", true, "", ""⟩ (by decide)

/-! ## The hero carousel -/

namespace Carousel

theorem goToSlide_currentIndex (c : Carousel) (i : Int) :
    (c.goToSlide i).currentIndex =
      (i + (c.totalSlides : Int)).tmod (c.totalSlides : Int) := rfl

theorem goToSlide_totalSlides (c : Carousel) (i : Int) :
    (c.goToSlide i).totalSlides = c.totalSlides := rfl

end Carousel

theorem neg_tmod_eq (a b : Int) : (-a).tmod b = -(a.tmod b) := by
  rw [Int.tmod_def, Int.tmod_def, Int.neg_tdiv]
  ring

/-- The truncating remainder stays above the negated divisor. -/
theorem neg_lt_tmod (a : Int) {b : Int} (hb : 0 < b) : -b < a.tmod b := by
  rcases le_or_lt 0 a with h | h
  · have := Int.tmod_nonneg b h
    omega
  · have h1 := Int.tmod_lt_of_pos (-a) hb
    rw [neg_tmod_eq] at h1
    omega

/-- The formula of the specification yields the least non-negative residue. -/
theorem wrapIndex_eq_emod (i : Int) (N : Nat) (hN : 1 ≤ N) :
    wrapIndex i N = i % (N : Int) := by
  unfold wrapIndex
  have hpos : (0 : Int) < (N : Int) := by exact_mod_cast hN
  have h1 : -(N : Int) < i.tmod (N : Int) := neg_lt_tmod i hpos
  have h2 : 0 ≤ i.tmod (N : Int) + (N : Int) := by omega
  rw [Int.tmod_eq_emod h2 (le_of_lt hpos), Int.add_emod_self, Int.tmod_def,
    Int.sub_eq_add_neg, ← Int.mul_neg, Int.add_mul_emod_self_left]

theorem goToSlide_eq_emod (c : Carousel) (i : Int) (hN : 1 ≤ c.totalSlides)
    (hi : -(c.totalSlides : Int) ≤ i) :
    (c.goToSlide i).currentIndex = i % (c.totalSlides : Int) := by
  have hpos : (0 : Int) < (c.totalSlides : Int) := by exact_mod_cast hN
  rw [Carousel.goToSlide_currentIndex,
    Int.tmod_eq_emod (by omega) (le_of_lt hpos), Int.add_emod_self]

/-- C5 (as amended). With at least one slide and an index `i` with
`-N ≤ i` and `i + N ≤ 2^53`, the range on which the sum `index + totalSlides`
of the source is exact, `goToSlide(i)` sets the current slide to
`((i mod N) + N) mod N`, which lies in `[0, N)` and is the only index there
that differs from `i` by a multiple of `N`; the track is translated to that
slide. -/
theorem goToSlide_wraps (c : Carousel) (i : Int) (hN : 1 ≤ c.totalSlides)
    (hi : -(c.totalSlides : Int) ≤ i) (_hexact : i + (c.totalSlides : Int) ≤ 2 ^ 53) :
    (c.goToSlide i).currentIndex = wrapIndex i c.totalSlides ∧
    0 ≤ (c.goToSlide i).currentIndex ∧
    (c.goToSlide i).currentIndex < (c.totalSlides : Int) ∧
    (c.totalSlides : Int) ∣ (c.goToSlide i).currentIndex - i ∧
    (∀ j : Int, 0 ≤ j → j < (c.totalSlides : Int) → (c.totalSlides : Int) ∣ j - i →
      j = (c.goToSlide i).currentIndex) ∧
    (c.goToSlide i).translatePercent = -((c.goToSlide i).currentIndex * 100) := by
  have hpos : (0 : Int) < (c.totalSlides : Int) := by exact_mod_cast hN
  have hnn : 0 ≤ (c.goToSlide i).currentIndex := by
    rw [goToSlide_eq_emod c i hN hi]
    exact Int.emod_nonneg _ (ne_of_gt hpos)
  have htr : (c.goToSlide i).translatePercent = -((c.goToSlide i).currentIndex * 100) := by
    show (if 0 ≤ (c.goToSlide i).currentIndex then -((c.goToSlide i).currentIndex * 100)
      else c.translatePercent) = _
    rw [if_pos hnn]
  refine ⟨?_, hnn, ?_, ?_, ?_, htr⟩
  · rw [goToSlide_eq_emod c i hN hi, wrapIndex_eq_emod i _ hN]
  · rw [goToSlide_eq_emod c i hN hi]
    exact Int.emod_lt_of_pos _ hpos
  · rw [goToSlide_eq_emod c i hN hi, Int.emod_def]
    exact ⟨-(i / (c.totalSlides : Int)), by ring⟩
  · intro j h0 h1 hd
    have h2 : j % (c.totalSlides : Int) = i % (c.totalSlides : Int) :=
      Int.emod_eq_emod_iff_emod_sub_eq_zero.mpr (Int.emod_eq_zero_of_dvd hd)
    rw [goToSlide_eq_emod c i hN hi, ← h2, Int.emod_eq_of_lt h0 h1]

namespace Carousel

theorem renderDots_length (cur : Int) (ds : List Dot) :
    ∀ k, (renderDots cur k ds).length = ds.length := by
  induction ds with
  | nil => intro k; rfl
  | cons d ds ih => intro k; simp [renderDots, ih]

theorem renderDots_congr (cur : Int) (ds : List Dot) :
    ∀ (ds' : List Dot) (k : Nat), ds.length = ds'.length →
      renderDots cur k ds = renderDots cur k ds' := by
  induction ds with
  | nil =>
    intro ds' k h
    cases ds' with
    | nil => rfl
    | cons _ _ => simp at h
  | cons d ds ih =>
    intro ds' k h
    cases ds' with
    | nil => simp at h
    | cons d' ds' =>
      simp only [renderDots]
      rw [ih ds' (k + 1) (by simpa using h)]

theorem createDots_length (n : Nat) : ∀ k, (createDots k n).length = n := by
  induction n with
  | zero => intro k; rfl
  | succ n ih => intro k; simp [createDots, ih]

theorem createDots_eq_renderDots (n : Nat) :
    ∀ k, createDots k n = renderDots 0 k (createDots k n) := by
  induction n with
  | zero => intro k; rfl
  | succ n ih =>
    intro k
    simp only [createDots, renderDots]
    have h1 : createDots (k + 1) n = renderDots 0 (k + 1) (createDots (k + 1) n) := ih (k + 1)
    have h2 : ((k : Int) == 0) = (k == 0) := by
      cases k with
      | zero => rfl
      | succ m =>
        have h3 : ((m + 1 : Nat) : Int) ≠ 0 := by omega
        have h4 : ((((m + 1 : Nat) : Int)) == 0) = false := by
          rw [beq_eq_false_iff_ne]; exact h3
        rw [h4]; rfl
    rw [h2]
    congr 1

/-- In a rendered row of dots, dot `i` is active exactly when its index is the
current one. -/
theorem renderDots_getElem (cur : Int) (ds : List Dot) :
    ∀ (k i : Nat) (h : i < (renderDots cur k ds).length),
      ((renderDots cur k ds)[i].active = true ↔ ((k + i : Nat) : Int) = cur) ∧
      ((renderDots cur k ds)[i].ariaCurrent = true ↔ ((k + i : Nat) : Int) = cur) := by
  induction ds with
  | nil => intro k i h; simp [renderDots] at h
  | cons d ds ih =>
    intro k i h
    cases i with
    | zero => simp [renderDots]
    | succ j =>
      simp only [renderDots, List.getElem_cons_succ]
      have := ih (k + 1) j (by simpa [renderDots] using h)
      have e : k + 1 + j = k + (j + 1) := by omega
      rw [e] at this
      exact this

/-- A rendered row of dots holds one active dot when the current index falls
inside the row, none otherwise. -/
theorem renderDots_count (cur : Int) (ds : List Dot) :
    ∀ k : Nat, ((renderDots cur k ds).filter (fun d => d.active)).length =
      if (k : Int) ≤ cur ∧ cur < (k : Int) + ds.length then 1 else 0 := by
  induction ds with
  | nil =>
    intro k
    have : ¬ ((k : Int) ≤ cur ∧ cur < (k : Int) + (([] : List Dot).length : Int)) := by
      simp only [List.length_nil]; omega
    rw [if_neg this]
    rfl
  | cons d ds ih =>
    intro k
    have hstep : ((renderDots cur k (d :: ds)).filter (fun d => d.active)).length =
        (if (k : Int) = cur then 1 else 0) +
          ((renderDots cur (k + 1) ds).filter (fun d => d.active)).length := by
      by_cases hk : (k : Int) = cur
      · simp [renderDots, List.filter_cons, hk]
        omega
      · simp [renderDots, List.filter_cons, hk]
    rw [hstep, ih (k + 1)]
    simp only [List.length_cons]
    push_cast
    split_ifs <;> omega

end Carousel

/-- Witness for C5, with the two cases of the specification for three slides. -/
theorem goToSlide_wraps_witness :
    (((Carousel.initial 3 true).goToSlide (-1)).currentIndex =
        wrapIndex (-1) (Carousel.initial 3 true).totalSlides ∧
      0 ≤ ((Carousel.initial 3 true).goToSlide (-1)).currentIndex ∧
      ((Carousel.initial 3 true).goToSlide (-1)).currentIndex <
        ((Carousel.initial 3 true).totalSlides : Int) ∧
      ((Carousel.initial 3 true).totalSlides : Int) ∣
        ((Carousel.initial 3 true).goToSlide (-1)).currentIndex - (-1) ∧
      (∀ j : Int, 0 ≤ j → j < ((Carousel.initial 3 true).totalSlides : Int) →
        ((Carousel.initial 3 true).totalSlides : Int) ∣ j - (-1) →
        j = ((Carousel.initial 3 true).goToSlide (-1)).currentIndex) ∧
      ((Carousel.initial 3 true).goToSlide (-1)).translatePercent =
        -(((Carousel.initial 3 true).goToSlide (-1)).currentIndex * 100)) ∧
    ((Carousel.initial 3 true).goToSlide (-1)).currentIndex = 2 ∧
    ((Carousel.initial 3 true).goToSlide 3).currentIndex = 0 :=
  ⟨goToSlide_wraps (Carousel.initial 3 true) (-1) (by decide) (by decide) (by decide),
    by decide, by decide⟩

/-- Counterexample to C5 as stated, which speaks of every integer `i`: with
three slides `goToSlide(-4)` leaves the current index at `-1`, outside
`[0, 3)`, where the formula of the specification gives `2`; no dot is active
and the track keeps the translation it had. -/
theorem goToSlide_below_range :
    ((Carousel.initial 3 true).goToSlide (-4)).currentIndex = -1 ∧
    wrapIndex (-4) 3 = 2 ∧
    (((Carousel.initial 3 true).goToSlide (-4)).dots.filter (fun d => d.active)).length = 0 ∧
    ((Carousel.initial 3 true).goToSlide (-4)).translatePercent =
      (Carousel.initial 3 true).translatePercent := by
  decide

/-- C6, the code at the failing trace: pointer-enter, a click on dot `0`, then
pointer-leave leave two interval timers pending, of which `autoPlayTimer`
remembers only the second. -/
theorem mouseLeave_leaves_two_timers :
    ((Carousel.initial 3 true).run [.mouseEnter, .dotClick 0, .mouseLeave]).timers =
        [{ handle := 2, due := 5000 }, { handle := 3, due := 5000 }] ∧
    ((Carousel.initial 3 true).run [.mouseEnter, .dotClick 0, .mouseLeave]).autoPlayTimer =
        some 3 := by
  decide

namespace Carousel

theorem SlideInv.inv_goToSlide {N : Nat} {c : Carousel} (h : c.SlideInv N) (hN : 1 ≤ N)
    (i : Int) (h0 : 0 ≤ i) : (c.goToSlide i).SlideInv N := by
  obtain ⟨ht, _, _, hd⟩ := h
  have hpos : (0 : Int) < (N : Int) := by exact_mod_cast hN
  have hcur : (c.goToSlide i).currentIndex = i % (N : Int) := by
    have := goToSlide_eq_emod c i (by omega) (by rw [ht]; omega)
    rw [this, ht]
  refine ⟨ht, ?_, ?_, ?_⟩
  · rw [hcur]; exact Int.emod_nonneg _ (ne_of_gt hpos)
  · rw [hcur]; exact Int.emod_lt_of_pos _ hpos
  · show renderDots _ 0 c.dots = _
    apply renderDots_congr
    rw [hd, renderDots_length]

theorem SlideInv.inv_of_eq {N : Nat} {c c' : Carousel} (h : c.SlideInv N)
    (ht : c'.totalSlides = c.totalSlides) (hi : c'.currentIndex = c.currentIndex)
    (hd : c'.dots = c.dots) : c'.SlideInv N := by
  unfold SlideInv at *
  rw [ht, hi, hd]
  exact h

theorem SlideInv.inv_clearIfSet {N : Nat} {c : Carousel} (h : c.SlideInv N) :
    c.clearIfSet.SlideInv N := by
  unfold Carousel.clearIfSet
  split
  · exact h.inv_of_eq rfl rfl rfl
  · exact h

theorem SlideInv.inv_resetAutoPlay {N : Nat} {c : Carousel} (h : c.SlideInv N) :
    c.resetAutoPlay.SlideInv N :=
  h.inv_clearIfSet.inv_of_eq rfl rfl rfl

theorem SlideInv.inv_next {N : Nat} {c : Carousel} (h : c.SlideInv N) (hN : 1 ≤ N) :
    c.next.SlideInv N := by
  have h2 := h
  obtain ⟨_, h0, h1, _⟩ := h2
  exact (h.inv_goToSlide hN (c.currentIndex + 1) (by omega)).inv_resetAutoPlay

theorem SlideInv.inv_fire {N : Nat} {c : Carousel} (h : c.SlideInv N) (hN : 1 ≤ N) (handle : Nat) :
    (c.fire handle).SlideInv N := by
  unfold Carousel.fire
  split
  · exact SlideInv.inv_next (h.inv_of_eq rfl rfl rfl) hN
  · exact h

theorem SlideInv.inv_foldl_fire {N : Nat} (hN : 1 ≤ N) (hs : List Nat) :
    ∀ {c : Carousel}, c.SlideInv N → (hs.foldl Carousel.fire c).SlideInv N := by
  induction hs with
  | nil => intro c h; exact h
  | cons a hs ih => intro c h; exact ih (h.inv_fire hN a)

theorem SlideInv.inv_tickMs {N : Nat} {c : Carousel} (h : c.SlideInv N) (hN : 1 ≤ N) :
    c.tickMs.SlideInv N := by
  unfold Carousel.tickMs
  exact SlideInv.inv_foldl_fire hN _ (h.inv_of_eq rfl rfl rfl)

theorem SlideInv.inv_elapse {N : Nat} (hN : 1 ≤ N) (ms : Nat) :
    ∀ {c : Carousel}, c.SlideInv N → (Carousel.elapse ms c).SlideInv N := by
  induction ms with
  | zero => intro c h; exact h
  | succ n ih => intro c h; exact ih (h.inv_tickMs hN)

theorem SlideInv.inv_dotClick {N : Nat} {c : Carousel} (h : c.SlideInv N) (hN : 1 ≤ N) (i : Nat) :
    (c.dotClick i).SlideInv N := by
  unfold Carousel.dotClick
  split
  · exact (h.inv_goToSlide hN (i : Int) (by omega)).inv_resetAutoPlay
  · exact h

theorem SlideInv.inv_mouseEnter {N : Nat} {c : Carousel} (h : c.SlideInv N) :
    c.mouseEnter.SlideInv N := by
  unfold Carousel.mouseEnter
  split
  · exact h.inv_clearIfSet.inv_of_eq rfl rfl rfl
  · exact h

theorem SlideInv.inv_mouseLeave {N : Nat} {c : Carousel} (h : c.SlideInv N) :
    c.mouseLeave.SlideInv N := by
  unfold Carousel.mouseLeave
  split
  · exact h.inv_of_eq rfl rfl rfl
  · exact h

theorem SlideInv.inv_step {N : Nat} {c : Carousel} (h : c.SlideInv N) (hN : 1 ≤ N)
    (e : CarouselEvent) : (c.step e).SlideInv N := by
  cases e with
  | elapse ms => exact SlideInv.inv_elapse hN ms h
  | dotClick i => exact h.inv_dotClick hN i
  | mouseEnter => exact h.inv_mouseEnter
  | mouseLeave => exact h.inv_mouseLeave

theorem SlideInv.inv_run {N : Nat} (hN : 1 ≤ N) (events : List CarouselEvent) :
    ∀ {c : Carousel}, c.SlideInv N → (c.run events).SlideInv N := by
  induction events with
  | nil => intro c h; exact h
  | cons e es ih => intro c h; exact ih (h.inv_step hN e)

theorem SlideInv.inv_initial (N : Nat) (hN : 1 ≤ N) (hasCarousel : Bool) :
    (Carousel.initial N hasCarousel).SlideInv N := by
  have h0 : SlideInv N
      { totalSlides := N, currentIndex := 0, autoPlayTimer := none,
        dots := Carousel.createDots 0 N, translatePercent := 0, hasCarousel := hasCarousel,
        now := 0, timers := [], nextHandle := 1 } :=
    ⟨rfl, le_refl _, by show (0 : Int) < (N : Int); omega, createDots_eq_renderDots N 0⟩
  exact h0.inv_resetAutoPlay

end Carousel

/-- C7. From the initialisation with at least one slide, after any sequence
of clock advances (with the autoplay ticks they bring), dot clicks,
pointer-enter and pointer-leave events, the current index is in `[0, N)`,
there is one dot per slide, exactly one dot is active, and a dot is active, and
marked current, exactly when its position is the current index. -/
theorem carousel_active_dot_invariant (N : Nat) (hN : 1 ≤ N) (hasCarousel : Bool)
    (events : List CarouselEvent) :
    initHeroCarousel N hasCarousel = some (Carousel.initial N hasCarousel) ∧
    0 ≤ ((Carousel.initial N hasCarousel).run events).currentIndex ∧
    ((Carousel.initial N hasCarousel).run events).currentIndex < (N : Int) ∧
    ((Carousel.initial N hasCarousel).run events).dots.length = N ∧
    (((Carousel.initial N hasCarousel).run events).dots.filter (fun d => d.active)).length = 1 ∧
    ∀ (i : Nat) (h : i < ((Carousel.initial N hasCarousel).run events).dots.length),
      ((((Carousel.initial N hasCarousel).run events).dots[i]).active = true ↔
        (i : Int) = ((Carousel.initial N hasCarousel).run events).currentIndex) ∧
      ((((Carousel.initial N hasCarousel).run events).dots[i]).ariaCurrent = true ↔
        (i : Int) = ((Carousel.initial N hasCarousel).run events).currentIndex) := by
  have hinv := Carousel.SlideInv.inv_run hN events (Carousel.SlideInv.inv_initial N hN hasCarousel)
  generalize (Carousel.initial N hasCarousel).run events = c at hinv ⊢
  obtain ⟨_, h0, h1, hd⟩ := hinv
  have hlen : (Carousel.createDots 0 N).length = N := Carousel.createDots_length N 0
  refine ⟨?_, h0, h1, ?_, ?_, ?_⟩
  · unfold initHeroCarousel
    rw [if_neg (by omega)]
  · rw [hd, Carousel.renderDots_length, hlen]
  · rw [hd, Carousel.renderDots_count, hlen, if_pos]
    exact ⟨by simpa using h0, by simpa using h1⟩
  · intro i h
    have key := Carousel.renderDots_getElem c.currentIndex (Carousel.createDots 0 N) 0 i
      (by rw [← hd]; exact h)
    simp only [Nat.zero_add] at key
    simpa [hd] using key

/-- Witness for C7: three slides, a pointer-enter, a click on the last dot, a
pointer-leave and one second of clock. -/
theorem carousel_active_dot_invariant_witness :
    0 ≤ ((Carousel.initial 3 true).run
      [.mouseEnter, .dotClick 2, .mouseLeave, .elapse 1000]).currentIndex ∧
    ((Carousel.initial 3 true).run
      [.mouseEnter, .dotClick 2, .mouseLeave, .elapse 1000]).currentIndex < ((3 : Nat) : Int) ∧
    (((Carousel.initial 3 true).run
      [.mouseEnter, .dotClick 2, .mouseLeave, .elapse 1000]).dots.filter
        (fun d => d.active)).length = 1 :=
  ⟨(carousel_active_dot_invariant 3 (by decide) true
      [.mouseEnter, .dotClick 2, .mouseLeave, .elapse 1000]).2.1,
   (carousel_active_dot_invariant 3 (by decide) true
      [.mouseEnter, .dotClick 2, .mouseLeave, .elapse 1000]).2.2.1,
   (carousel_active_dot_invariant 3 (by decide) true
      [.mouseEnter, .dotClick 2, .mouseLeave, .elapse 1000]).2.2.2.2.1⟩

theorem Countdown.step_dotClick (a : Countdown) (i : Nat) :
    a.step (.dotClick i) =
      if i < a.slides then { a with current := (i : Int), lastNavigation := a.now } else a := rfl

namespace Carousel

theorem tickMs_def (c : Carousel) :
    c.tickMs =
      (List.map (fun t => t.handle)
        (List.filter (fun t => t.due == c.now + 1) c.timers)).foldl fire
        { c with now := c.now + 1 } := rfl

/-- With a single pending timer named by `autoPlayTimer`, `resetAutoPlay`
replaces it by a fresh one due one interval from now. -/
theorem resetAutoPlay_single (c : Carousel) (h D : Nat)
    (ha : c.autoPlayTimer = some (h + 1)) (ht : c.timers = [{ handle := h + 1, due := D }]) :
    c.resetAutoPlay =
      { c with
        autoPlayTimer := some c.nextHandle
        timers := [{ handle := c.nextHandle, due := c.now + AUTO_PLAY_INTERVAL }]
        nextHandle := c.nextHandle + 1 } := by
  unfold resetAutoPlay clearIfSet
  rw [ha]
  simp [clearInterval, setInterval, ht]

theorem Realises.sim_navigate {c : Carousel} {a : Countdown} (h : c.Realises a) (i : Int)
    (h0 : 0 ≤ i) (hi : i < (a.slides : Int)) :
    ((c.goToSlide i).resetAutoPlay).Realises
      { a with current := i, lastNavigation := a.now } := by
  obtain ⟨hs, h1, hd, hn, hc, hc0, hc1, hlt, hnh, k, hk, htm⟩ := h
  have hcur : (c.goToSlide i).currentIndex = i := by
    rw [goToSlide_eq_emod c i (by omega) (by omega), hs]
    exact Int.emod_eq_of_lt h0 hi
  rw [resetAutoPlay_single (c.goToSlide i) k _ hk htm]
  refine ⟨hs, h1, ?_, hn, hcur, h0, hi, ?_, ?_, ?_⟩
  · show (renderDots _ 0 c.dots).length = _
    rw [renderDots_length, hd]
  · show a.now < a.now + AUTO_PLAY_INTERVAL
    unfold AUTO_PLAY_INTERVAL; omega
  · show 1 ≤ c.nextHandle + 1
    omega
  · obtain ⟨m, hm⟩ : ∃ m, c.nextHandle = m + 1 := ⟨c.nextHandle - 1, by omega⟩
    refine ⟨m, ?_, ?_⟩
    · show some c.nextHandle = _
      rw [hm]
    · show [IntervalTimer.mk c.nextHandle (c.now + AUTO_PLAY_INTERVAL)] = _
      rw [hm, hn]

theorem Realises.sim_next_of {c : Carousel} {a : Countdown} (h : c.Realises a) :
    c.next.Realises
      { a with current := wrapIndex (a.current + 1) a.slides, lastNavigation := a.now } := by
  have h' := h
  obtain ⟨hs, h1, hd, hn, hc, hc0, hc1, hlt, hnh, k, hk, htm⟩ := h'
  have hp : (0 : Int) < (a.slides : Int) := by omega
  have hm := Int.emod_nonneg (a.current + 1) (ne_of_gt hp)
  have hw : wrapIndex (a.current + 1) a.slides = (a.current + 1) % (a.slides : Int) :=
    wrapIndex_eq_emod _ _ h1
  have e1 : (a.current + 1 + (a.slides : Int)).tmod (a.slides : Int) =
      (a.current + 1 + (a.slides : Int)) % (a.slides : Int) :=
    Int.tmod_eq_emod (by omega) (by omega)
  have e2 : ((a.current + 1) % (a.slides : Int) + (a.slides : Int)).tmod (a.slides : Int) =
      ((a.current + 1) % (a.slides : Int) + (a.slides : Int)) % (a.slides : Int) :=
    Int.tmod_eq_emod (by omega) (by omega)
  have e : (c.currentIndex + 1 + (c.totalSlides : Int)).tmod (c.totalSlides : Int) =
      ((a.current + 1) % (a.slides : Int) + (c.totalSlides : Int)).tmod
        (c.totalSlides : Int) := by
    rw [hs, hc, e1, e2]
    simp
  have hgo : c.goToSlide (c.currentIndex + 1) =
      c.goToSlide ((a.current + 1) % (a.slides : Int)) := by
    unfold Carousel.goToSlide
    simp only [e]
  unfold Carousel.next
  rw [hgo, hw]
  exact h.sim_navigate _ hm (Int.emod_lt_of_pos _ hp)

theorem Realises.sim_dotClick {c : Carousel} {a : Countdown} (h : c.Realises a) (i : Nat) :
    (c.dotClick i).Realises (a.step (.dotClick i)) := by
  have hd := h.2.2.1
  rw [Countdown.step_dotClick]
  unfold Carousel.dotClick
  rw [hd]
  by_cases hi : i < a.slides
  · rw [if_pos hi, if_pos hi]
    exact h.sim_navigate (i : Int) (by omega) (by exact_mod_cast hi)
  · rw [if_neg hi, if_neg hi]
    exact h

theorem Realises.sim_tickMs {c : Carousel} {a : Countdown} (h : c.Realises a) :
    c.tickMs.Realises a.tickMs := by
  have h' := h
  obtain ⟨hs, h1, hd, hn, hc, hc0, hc1, hlt, hnh, k, hk, htm⟩ := h'
  rw [tickMs_def]
  unfold Countdown.tickMs
  by_cases hdue : a.now + 1 = a.lastNavigation + AUTO_PLAY_INTERVAL
  · rw [if_pos hdue]
    have hf : (List.map (fun t => t.handle)
        (List.filter (fun t => t.due == c.now + 1) c.timers)) = [k + 1] := by
      simp [htm, hn, hdue]
    rw [hf]
    simp only [List.foldl_cons, List.foldl_nil]
    have hfire : Carousel.fire { c with now := c.now + 1 } (k + 1) =
        Carousel.next { c with
          now := c.now + 1
          timers := [{ handle := k + 1, due := c.now + 1 + AUTO_PLAY_INTERVAL }] } := by
      unfold Carousel.fire
      simp [htm]
    rw [hfire]
    have hr : Carousel.Realises
        { c with
          now := c.now + 1
          timers := [{ handle := k + 1, due := c.now + 1 + AUTO_PLAY_INTERVAL }] }
        { a with now := a.now + 1, lastNavigation := a.now + 1 } :=
      ⟨hs, h1, hd, by show c.now + 1 = a.now + 1; rw [hn], hc, hc0, hc1,
        by show a.now + 1 < a.now + 1 + AUTO_PLAY_INTERVAL; unfold AUTO_PLAY_INTERVAL; omega,
        hnh, k, hk, by show _ = [IntervalTimer.mk (k + 1) (a.now + 1 + AUTO_PLAY_INTERVAL)]; rw [hn]⟩
    exact hr.sim_next_of
  · rw [if_neg hdue]
    have hf : (List.map (fun t => t.handle)
        (List.filter (fun t => t.due == c.now + 1) c.timers)) = [] := by
      have : ¬ (a.lastNavigation + AUTO_PLAY_INTERVAL = a.now + 1) := fun e => hdue e.symm
      simp [htm, hn, this]
    rw [hf]
    exact ⟨hs, h1, hd, by show c.now + 1 = a.now + 1; rw [hn], hc, hc0, hc1,
      by show a.now + 1 < a.lastNavigation + AUTO_PLAY_INTERVAL; omega, hnh, k, hk, htm⟩

theorem Realises.sim_elapse (ms : Nat) : ∀ {c : Carousel} {a : Countdown}, c.Realises a →
    (Carousel.elapse ms c).Realises (Countdown.elapse ms a) := by
  induction ms with
  | zero => intro c a h; exact h
  | succ n ih => intro c a h; exact ih h.sim_tickMs

theorem Realises.sim_run (events : List CarouselEvent) :
    ∀ {c : Carousel} {a : Countdown}, c.Realises a →
      (∀ e ∈ events, e.isHover = false) → (c.run events).Realises (a.run events) := by
  induction events with
  | nil => intro c a h _; exact h
  | cons e es ih =>
    intro c a h hev
    have he := hev e (by simp)
    have hes : ∀ x ∈ es, x.isHover = false := fun x hx => hev x (by simp [hx])
    cases e with
    | elapse ms => exact ih (Realises.sim_elapse ms h) hes
    | dotClick i => exact ih (h.sim_dotClick i) hes
    | mouseEnter => simp [CarouselEvent.isHover] at he
    | mouseLeave => simp [CarouselEvent.isHover] at he

theorem Realises.sim_initial (N : Nat) (hN : 1 ≤ N) (hasCarousel : Bool) :
    (Carousel.initial N hasCarousel).Realises (Countdown.initial N) := by
  refine ⟨rfl, hN, ?_, rfl, rfl, le_refl _, ?_, ?_, ?_, 0, rfl, rfl⟩
  · show (createDots 0 N).length = N
    exact createDots_length N 0
  · show (0 : Int) < (N : Int)
    omega
  · show 0 < 0 + AUTO_PLAY_INTERVAL
    unfold AUTO_PLAY_INTERVAL; omega
  · show 1 ≤ 1 + 1
    omega

end Carousel

namespace Countdown

theorem elapse_succ (ms : Nat) : ∀ a : Countdown, elapse (ms + 1) a = tickMs (elapse ms a) := by
  induction ms with
  | zero => intro a; rfl
  | succ n ih => intro a; exact ih (tickMs a)

/-- Before the countdown runs out only the clock moves. -/
theorem elapse_quiet (d : Nat) (a : Countdown)
    (h : a.now + d < a.lastNavigation + AUTO_PLAY_INTERVAL) :
    elapse d a = { a with now := a.now + d } := by
  induction d with
  | zero => rfl
  | succ n ih =>
    rw [elapse_succ, ih (by omega)]
    unfold tickMs
    rw [if_neg (by show ¬ (a.now + n + 1 = a.lastNavigation + AUTO_PLAY_INTERVAL); omega)]
    rfl

/-- At the instant the countdown runs out the slide advances and the
countdown restarts. -/
theorem elapse_advance (a : Countdown) (h : a.now < a.lastNavigation + AUTO_PLAY_INTERVAL) :
    elapse (a.lastNavigation + AUTO_PLAY_INTERVAL - a.now) a =
      { a with
        now := a.lastNavigation + AUTO_PLAY_INTERVAL
        lastNavigation := a.lastNavigation + AUTO_PLAY_INTERVAL
        current := wrapIndex (a.current + 1) a.slides } := by
  obtain ⟨d, hd⟩ : ∃ d, a.lastNavigation + AUTO_PLAY_INTERVAL - a.now = d + 1 :=
    ⟨a.lastNavigation + AUTO_PLAY_INTERVAL - a.now - 1, by omega⟩
  rw [hd, elapse_succ, elapse_quiet d a (by omega)]
  unfold tickMs
  have e : a.now + d + 1 = a.lastNavigation + AUTO_PLAY_INTERVAL := by omega
  rw [if_pos (by show a.now + d + 1 = a.lastNavigation + AUTO_PLAY_INTERVAL; exact e)]
  show Countdown.mk _ (a.now + d + 1) (a.now + d + 1) _ = _
  rw [e]

end Countdown

namespace Carousel

theorem run_append (c : Carousel) (es es' : List CarouselEvent) :
    c.run (es ++ es') = (c.run es).run es' := by
  unfold run
  rw [List.foldl_append]

/-- From a state that realises a countdown, the slide stays put until the
countdown runs out. -/
theorem Realises.sim_quiet {c : Carousel} {a : Countdown} (h : c.Realises a) (d : Nat)
    (hd : a.now + d < a.lastNavigation + AUTO_PLAY_INTERVAL) :
    (c.run [.elapse d]).currentIndex = a.current := by
  have h2 := Realises.sim_elapse d h
  rw [Countdown.elapse_quiet d a hd] at h2
  exact h2.2.2.2.2.1

/-- From a state that realises a countdown, the slide advances at the instant
the countdown runs out. -/
theorem Realises.sim_advance {c : Carousel} {a : Countdown} (h : c.Realises a) :
    (c.run [.elapse (a.lastNavigation + AUTO_PLAY_INTERVAL - a.now)]).currentIndex =
      wrapIndex (a.current + 1) a.slides := by
  have h2 := Realises.sim_elapse (a.lastNavigation + AUTO_PLAY_INTERVAL - a.now) h
  rw [Countdown.elapse_advance a h.2.2.2.2.2.2.2.1] at h2
  exact h2.2.2.2.2.1

end Carousel

theorem Countdown.tickMs_slides (a : Countdown) : a.tickMs.slides = a.slides := by
  unfold Countdown.tickMs
  split <;> rfl

theorem Countdown.elapse_slides (ms : Nat) :
    ∀ a : Countdown, (Countdown.elapse ms a).slides = a.slides := by
  induction ms with
  | zero => intro a; rfl
  | succ n ih => intro a; exact (ih a.tickMs).trans a.tickMs_slides

theorem Countdown.step_slides (a : Countdown) (e : CarouselEvent) :
    (a.step e).slides = a.slides := by
  cases e with
  | elapse ms => exact Countdown.elapse_slides ms a
  | dotClick i =>
    rw [Countdown.step_dotClick]
    split <;> rfl
  | mouseEnter => rfl
  | mouseLeave => rfl

theorem Countdown.run_slides (events : List CarouselEvent) :
    ∀ a : Countdown, (a.run events).slides = a.slides := by
  induction events with
  | nil => intro a; rfl
  | cons e es ih => intro a; exact (ih (a.step e)).trans (a.step_slides e)

/-- C8. On a virtual clock and without pointer-enter or pointer-leave events,
the carousel follows the countdown of the specification: one timer is pending,
due one interval after the most recent navigation; the slide does not move
before that instant and advances by `goToSlide(current + 1)` at it.  From the
initial state no advance happens before 5000 ms and the slide is `1` at
5000 ms when there are two slides or more; after a click on dot `i` at any
instant the slide stays `i` for the next 5000 ms exclusive and advances at
exactly 5000 ms after the click. -/
theorem autoplay_restarts_on_navigation (N : Nat) (hN : 1 ≤ N) (hasCarousel : Bool)
    (events : List CarouselEvent) (hev : ∀ e ∈ events, e.isHover = false)
    (c : Carousel) (a : Countdown)
    (hc : c = (Carousel.initial N hasCarousel).run events)
    (ha : a = (Countdown.initial N).run events) :
    (c.now = a.now ∧ c.currentIndex = a.current ∧
      ∃ h, c.autoPlayTimer = some h ∧
        c.timers = [{ handle := h, due := a.lastNavigation + AUTO_PLAY_INTERVAL }]) ∧
    (∀ d, c.now + d < a.lastNavigation + AUTO_PLAY_INTERVAL →
      (c.run [.elapse d]).currentIndex = c.currentIndex) ∧
    (c.run [.elapse (a.lastNavigation + AUTO_PLAY_INTERVAL - c.now)]).currentIndex =
      wrapIndex (c.currentIndex + 1) N ∧
    (∀ d, d < AUTO_PLAY_INTERVAL →
      ((Carousel.initial N hasCarousel).run [.elapse d]).currentIndex = 0) ∧
    ((Carousel.initial N hasCarousel).run [.elapse AUTO_PLAY_INTERVAL]).currentIndex =
      wrapIndex 1 N ∧
    (2 ≤ N →
      ((Carousel.initial N hasCarousel).run [.elapse AUTO_PLAY_INTERVAL]).currentIndex = 1) ∧
    ∀ i, i < N →
      (c.run [.dotClick i]).timers.map (fun t => t.due) = [c.now + AUTO_PLAY_INTERVAL] ∧
      (∀ d, d < AUTO_PLAY_INTERVAL →
        (c.run [.dotClick i, .elapse d]).currentIndex = (i : Int)) ∧
      (c.run [.dotClick i, .elapse AUTO_PLAY_INTERVAL]).currentIndex =
        wrapIndex ((i : Int) + 1) N := by
  have h0 := Carousel.Realises.sim_initial N hN hasCarousel
  have hr : c.Realises a := by
    rw [hc, ha]
    exact Carousel.Realises.sim_run events h0 hev
  have hs : a.slides = N := by rw [ha, Countdown.run_slides]; rfl
  have hr' := hr
  obtain ⟨_, _, _, hn, hci, _, _, hlt, _, k, hk, htm⟩ := hr'
  have hfirst : ((Carousel.initial N hasCarousel).run [.elapse AUTO_PLAY_INTERVAL]).currentIndex =
      wrapIndex 1 N := by
    have := h0.sim_advance
    simpa [Countdown.initial] using this
  refine ⟨⟨hn, hci, k + 1, hk, htm⟩, ?_, ?_, ?_, hfirst, ?_, ?_⟩
  · intro d hd
    rw [hci]
    exact hr.sim_quiet d (by omega)
  · have := hr.sim_advance
    rw [hs] at this
    rw [hn, hci]
    exact this
  · intro d hd
    exact h0.sim_quiet d (by show 0 + d < 0 + AUTO_PLAY_INTERVAL; omega)
  · intro h2
    rw [hfirst, wrapIndex_eq_emod 1 N hN]
    exact Int.emod_eq_of_lt (by omega) (by omega)
  · intro i hi
    have hclick : (c.run [.dotClick i]).Realises
        { a with current := (i : Int), lastNavigation := a.now } := by
      have := hr.sim_dotClick i
      rw [Countdown.step_dotClick, if_pos (by omega)] at this
      exact this
    refine ⟨?_, ?_, ?_⟩
    · obtain ⟨_, _, _, _, _, _, _, _, _, k', _, htm'⟩ := hclick
      rw [htm', hn]
      rfl
    · intro d hd
      have := hclick.sim_quiet d (by show a.now + d < a.now + AUTO_PLAY_INTERVAL; omega)
      rw [← Carousel.run_append] at this
      exact this
    · have := hclick.sim_advance
      rw [← Carousel.run_append] at this
      simp only [Nat.add_sub_cancel_left] at this
      rw [hs] at this
      exact this

/-- Witness for C8: three slides, a click on the last dot 1200 ms after the
initialisation. -/
theorem autoplay_restarts_on_navigation_witness :
    ((Carousel.initial 3 true).run [.elapse AUTO_PLAY_INTERVAL]).currentIndex = 1 ∧
    (∀ d, d < AUTO_PLAY_INTERVAL →
      (((Carousel.initial 3 true).run [.elapse 1200]).run
        [.dotClick 2, .elapse d]).currentIndex = ((2 : Nat) : Int)) ∧
    (((Carousel.initial 3 true).run [.elapse 1200]).run
        [.dotClick 2, .elapse AUTO_PLAY_INTERVAL]).currentIndex =
      wrapIndex (((2 : Nat) : Int) + 1) 3 :=
  ⟨(autoplay_restarts_on_navigation 3 (by decide) true [.elapse 1200] (by decide)
      _ _ rfl rfl).2.2.2.2.2.1 (by decide),
   ((autoplay_restarts_on_navigation 3 (by decide) true [.elapse 1200] (by decide)
      _ _ rfl rfl).2.2.2.2.2.2 2 (by decide)).2.1,
   ((autoplay_restarts_on_navigation 3 (by decide) true [.elapse 1200] (by decide)
      _ _ rfl rfl).2.2.2.2.2.2 2 (by decide)).2.2⟩

/-! ## The contact form -/

theorem errorKey_injective {a b : String} (h : a ++ "Error" = b ++ "Error") : a = b := by
  have h2 : (a ++ "Error").data = (b ++ "Error").data := by rw [h]
  rw [String.data_append, String.data_append] at h2
  exact String.ext (List.append_cancel_right h2)

/-- `validateField` writes to no element but the error element of its field. -/
theorem validateField_other_key (els : ErrorElements) (field : Field) (k : String)
    (hk : field.id ++ "Error" ≠ k) : (validateField els field).2.1 k = els k := by
  unfold validateField
  have hk' : ¬ k = field.id ++ "Error" := fun e => hk e.symm
  cases hel : els (field.id ++ "Error") with
  | none => rfl
  | some e =>
    by_cases h : (validateFieldChecks field).1 = true <;>
      simp [h, ErrorElements.set, hk']

/-- `validateField` neither creates nor deletes an element. -/
theorem validateField_isSome (els : ErrorElements) (field : Field) (k : String) :
    ((validateField els field).2.1 k).isSome = (els k).isSome := by
  by_cases hk : field.id ++ "Error" = k
  · subst hk
    rw [validateField_display]
    cases els (field.id ++ "Error") <;> rfl
  · rw [validateField_other_key els field k hk]

/-- The field `validateField` leaves behind depends on the document only
through the presence of the error element. -/
theorem validateField_field (els : ErrorElements) (field : Field) :
    (validateField els field).2.2 =
      if (els (field.id ++ "Error")).isSome then
        { field with
          borderColor := if (validateFieldChecks field).1 then "" else "#ef4444" }
      else field := by
  unfold validateField
  cases hel : els (field.id ++ "Error") with
  | none => rfl
  | some e =>
    by_cases h : (validateFieldChecks field).1 = true <;> simp [h]

namespace ContactForm

theorem validateAll_valid (inputs : List Field) :
    ∀ (els : ErrorElements) (b : Bool) (done : List Field),
      (validateAll els inputs b done).1 =
        (b && inputs.all (fun f => (validateFieldChecks f).1)) := by
  induction inputs with
  | nil => intro els b done; simp [validateAll]
  | cons g rest ih =>
    intro els b done
    simp only [validateAll]
    rw [ih, validateField_fst]
    cases hv : (validateFieldChecks g).1 <;> cases b <;> simp [List.all_cons, hv]

theorem validateAll_other_key (inputs : List Field) :
    ∀ (els : ErrorElements) (b : Bool) (done : List Field) (k : String),
      (∀ f ∈ inputs, f.id ++ "Error" ≠ k) →
      (validateAll els inputs b done).2.1 k = els k := by
  induction inputs with
  | nil => intro els b done k _; rfl
  | cons g rest ih =>
    intro els b done k hk
    simp only [validateAll]
    rw [ih _ _ _ k (fun f hf => hk f (by simp [hf])),
      validateField_other_key els g k (hk g (by simp))]

theorem validateAll_isSome (inputs : List Field) :
    ∀ (els : ErrorElements) (b : Bool) (done : List Field) (k : String),
      ((validateAll els inputs b done).2.1 k).isSome = (els k).isSome := by
  induction inputs with
  | nil => intro els b done k; rfl
  | cons g rest ih =>
    intro els b done k
    simp only [validateAll]
    rw [ih, validateField_isSome]

theorem validateAll_fields (inputs : List Field) :
    ∀ (els : ErrorElements) (b : Bool) (done : List Field),
      (validateAll els inputs b done).2.2 =
        done.reverse ++ inputs.map (fun f => (validateField els f).2.2) := by
  induction inputs with
  | nil => intro els b done; simp [validateAll]
  | cons g rest ih =>
    intro els b done
    simp only [validateAll]
    rw [ih]
    have hrest : rest.map (fun f => (validateField (validateField els g).2.1 f).2.2) =
        rest.map (fun f => (validateField els f).2.2) := by
      apply List.map_congr_left
      intro f _
      rw [validateField_field, validateField_field, validateField_isSome]
    rw [hrest]
    simp

/-- When controls share an identifier only if no error element goes with it,
the loop leaves every error element showing the verdict on its own control. -/
theorem validateAll_display (inputs : List Field) :
    ∀ (els : ErrorElements) (b : Bool) (done : List Field),
      inputs.Pairwise (fun f g => f.id = g.id → els (f.id ++ "Error") = none) →
      ∀ f ∈ inputs, (validateAll els inputs b done).2.1 (f.id ++ "Error") =
        (els (f.id ++ "Error")).map
          (fun _ => { shown := !(validateFieldChecks f).1,
                      textContent := (validateFieldChecks f).2 }) := by
  induction inputs with
  | nil => intro els b done _ f hf; cases hf
  | cons g rest ih =>
    intro els b done hp f hf
    rw [List.pairwise_cons] at hp
    obtain ⟨hg, hrest⟩ := hp
    simp only [validateAll]
    have hrest' : rest.Pairwise
        (fun x y => x.id = y.id → (validateField els g).2.1 (x.id ++ "Error") = none) := by
      refine hrest.imp ?_
      intro x y hxy e
      have h1 := validateField_isSome els g (x.id ++ "Error")
      rw [hxy e] at h1
      cases h2 : (validateField els g).2.1 (x.id ++ "Error") with
      | none => rfl
      | some v => rw [h2] at h1; simp at h1
    by_cases hin : f ∈ rest
    · rw [ih _ _ _ hrest' f hin]
      have h1 := validateField_isSome els g (f.id ++ "Error")
      cases h2 : (validateField els g).2.1 (f.id ++ "Error") with
      | none =>
        rw [h2] at h1
        cases h3 : els (f.id ++ "Error") with
        | none => rfl
        | some v => rw [h3] at h1; simp at h1
      | some w =>
        rw [h2] at h1
        cases h3 : els (f.id ++ "Error") with
        | none => rw [h3] at h1; simp at h1
        | some v => rfl
    · have hfg : f = g := by
        rcases List.mem_cons.mp hf with h | h
        · exact h
        · exact absurd h hin
      subst hfg
      by_cases hshare : ∃ x ∈ rest, x.id = f.id
      · obtain ⟨x, hx, hxid⟩ := hshare
        have hnone : els (f.id ++ "Error") = none := hg x hx hxid.symm
        have h1 := validateAll_isSome rest (validateField els f).2.1
          (if (!(validateField els f).1) = true then false else b)
          ((validateField els f).2.2 :: done) (f.id ++ "Error")
        rw [validateField_isSome, hnone] at h1
        rw [hnone]
        cases h2 : (validateAll (validateField els f).2.1 rest
          (if (!(validateField els f).1) = true then false else b)
          ((validateField els f).2.2 :: done)).2.1 (f.id ++ "Error") with
        | none => rfl
        | some v => rw [h2] at h1; simp at h1
      · rw [validateAll_other_key rest _ _ _ (f.id ++ "Error")
          (fun x hx e => hshare ⟨x, hx, errorKey_injective e⟩)]
        exact validateField_display els f

end ContactForm

/-- C9. On a form whose controls share an identifier only when no error
element goes with it, the submit handler shows the confirmation exactly once
and resets every control to its markup default (empty when the markup presets
nothing) when every control passes `validateField`; when at least one control
fails it shows nothing, and the error element of every failing control, not
only of the first, is shown with the message of that control, whose border
turns red. -/
theorem submit_notifies_once_or_shows_every_error (form : ContactForm)
    (hids : form.inputs.Pairwise
      (fun f g => f.id = g.id → form.errorElements (f.id ++ "Error") = none)) :
    ((∀ f ∈ form.inputs, (validateField form.errorElements f).1 = true) →
      form.submit.page = form.page.showSuccess successMessage ∧
      form.submit.page.body = form.page.body ++
        [{ node := form.page.nextNode, textContent := successMessage,
           backgroundColor := "#10b981", animation := "slideIn 0.3s ease" }] ∧
      form.submit.inputs =
        form.inputs.map (fun f => { f with value := f.defaultValue, borderColor := "" }) ∧
      ((∀ f ∈ form.inputs, f.defaultValue = "") → ∀ f ∈ form.submit.inputs, f.value = "")) ∧
    ((∃ f ∈ form.inputs, (validateField form.errorElements f).1 = false) →
      form.submit.page = form.page ∧
      form.submit.inputs = form.inputs.map (fun f => (validateField form.errorElements f).2.2) ∧
      ∀ f ∈ form.inputs, (validateField form.errorElements f).1 = false →
        form.submit.errorElements (f.id ++ "Error") =
          (form.errorElements (f.id ++ "Error")).map
            (fun _ => { shown := true, textContent := (validateFieldChecks f).2 }) ∧
        ((form.errorElements (f.id ++ "Error")).isSome = true →
          (validateField form.errorElements f).2.2 = { f with borderColor := "#ef4444" })) := by
  have hv := ContactForm.validateAll_valid form.inputs form.errorElements true []
  have hf := ContactForm.validateAll_fields form.inputs form.errorElements true []
  have hd := ContactForm.validateAll_display form.inputs form.errorElements true [] hids
  constructor
  · intro hall
    have hok : (ContactForm.validateAll form.errorElements form.inputs true []).1 = true := by
      rw [hv]
      simp only [Bool.true_and, List.all_eq_true]
      intro f hfm
      rw [← validateField_fst form.errorElements f]
      exact hall f hfm
    have hsub : form.submit = ContactForm.handleFormSubmit
        { form with
          errorElements := (ContactForm.validateAll form.errorElements form.inputs true []).2.1
          inputs := (ContactForm.validateAll form.errorElements form.inputs true []).2.2 } := by
      unfold ContactForm.submit
      simp only [hok, if_true]
    have hin : form.submit.inputs =
        form.inputs.map (fun f => { f with value := f.defaultValue, borderColor := "" }) := by
      rw [hsub]
      show List.map _ (List.map ContactForm.resetField
        (ContactForm.validateAll form.errorElements form.inputs true []).2.2) = _
      rw [hf]
      simp only [List.reverse_nil, List.nil_append, List.map_map]
      apply List.map_congr_left
      intro f _
      simp only [Function.comp, ContactForm.resetField]
      rw [validateField_field]
      split <;> rfl
    refine ⟨by rw [hsub]; rfl, by rw [hsub]; rfl, hin, ?_⟩
    intro hdef f hfm
    rw [hin] at hfm
    obtain ⟨g, hg, rfl⟩ := List.mem_map.mp hfm
    exact hdef g hg
  · rintro ⟨f0, hf0, hbad⟩
    have hnot : (ContactForm.validateAll form.errorElements form.inputs true []).1 = false := by
      rw [hv]
      simp only [Bool.true_and]
      apply Bool.eq_false_iff.mpr
      intro hall
      have := List.all_eq_true.mp hall f0 hf0
      rw [validateField_fst] at hbad
      rw [hbad] at this
      exact Bool.noConfusion this
    have hsub : form.submit =
        { form with
          errorElements := (ContactForm.validateAll form.errorElements form.inputs true []).2.1
          inputs := (ContactForm.validateAll form.errorElements form.inputs true []).2.2 } := by
      unfold ContactForm.submit
      simp only [hnot]
      rfl
    refine ⟨by rw [hsub], ?_, ?_⟩
    · rw [hsub]
      show (ContactForm.validateAll form.errorElements form.inputs true []).2.2 = _
      rw [hf]
      rfl
    · intro f hfm hfbad
      rw [validateField_fst] at hfbad
      constructor
      · rw [hsub]
        show (ContactForm.validateAll form.errorElements form.inputs true []).2.1 _ = _
        rw [hd f hfm, hfbad]
        rfl
      · intro hsome
        rw [validateField_field, if_pos hsome, hfbad]
        rfl

/-- Witness for C9: a required name left blank, a malformed email address and
a well-formed telephone number.  Nothing is notified and the error element of
the second failing control is shown as well. -/
theorem submit_notifies_once_or_shows_every_error_witness :
    (ContactForm.submit
      { inputs := [⟨"name", "text", "", true, "", ""⟩,
                   ⟨"email", "email", "a@b", true, "", ""⟩,
                   ⟨"phone", "tel", "98765-43210", true, "", ""⟩],
        errorElements := fun k =>
          if k = "nameError" ∨ k = "emailError" ∨ k = "phoneError" then
            some { shown := false, textContent := "" }
          else none,
        page := Page.fresh }).page = Page.fresh ∧
    (ContactForm.submit
      { inputs := [⟨"name", "text", "", true, "", ""⟩,
                   ⟨"email", "email", "a@b", true, "", ""⟩,
                   ⟨"phone", "tel", "98765-43210", true, "", ""⟩],
        errorElements := fun k =>
          if k = "nameError" ∨ k = "emailError" ∨ k = "phoneError" then
            some { shown := false, textContent := "" }
          else none,
        page := Page.fresh }).errorElements "emailError" =
      some { shown := true, textContent := "Please enter a valid email address" } :=
  ⟨((submit_notifies_once_or_shows_every_error
      { inputs := [⟨"name", "text", "", true, "", ""⟩,
                   ⟨"email", "email", "a@b", true, "", ""⟩,
                   ⟨"phone", "tel", "98765-43210", true, "", ""⟩],
        errorElements := fun k =>
          if k = "nameError" ∨ k = "emailError" ∨ k = "phoneError" then
            some { shown := false, textContent := "" }
          else none,
        page := Page.fresh }
      (by decide)).2 ⟨⟨"name", "text", "", true, "", ""⟩, by decide, by decide⟩).1,
   (((submit_notifies_once_or_shows_every_error
      { inputs := [⟨"name", "text", "", true, "", ""⟩,
                   ⟨"email", "email", "a@b", true, "", ""⟩,
                   ⟨"phone", "tel", "98765-43210", true, "", ""⟩],
        errorElements := fun k =>
          if k = "nameError" ∨ k = "emailError" ∨ k = "phoneError" then
            some { shown := false, textContent := "" }
          else none,
        page := Page.fresh }
      (by decide)).2 ⟨⟨"name", "text", "", true, "", ""⟩, by decide, by decide⟩).2.2
        ⟨"email", "email", "a@b", true, "", ""⟩ (by decide) (by decide)).1⟩

/-! ## The toast notifier -/

namespace Page

theorem runAction_now (p : Page) (a : TimeoutAction) : (p.runAction a).now = p.now := by
  cases a <;> rfl

theorem runAction_nextNode (p : Page) (a : TimeoutAction) :
    (p.runAction a).nextNode = p.nextNode := by
  cases a <;> rfl

theorem texts_map_eq (f : Notification → Notification)
    (hnode : ∀ x, (f x).node = x.node) (htext : ∀ x, (f x).textContent = x.textContent)
    (node : Nat) (xs : List Notification) :
    ((xs.map f).filter (fun n => n.node == node)).map (fun n => n.textContent) =
      (xs.filter (fun n => n.node == node)).map (fun n => n.textContent) := by
  induction xs with
  | nil => rfl
  | cons x xs ih =>
    simp only [List.map_cons, List.filter_cons, hnode]
    split
    · simp only [List.map_cons, htext, ih]
    · exact ih

theorem texts_remove_self (node : Nat) (xs : List Notification) :
    ((xs.filter (fun n => n.node != node)).filter (fun n => n.node == node)) = [] := by
  apply List.filter_eq_nil_iff.mpr
  intro x hx
  have := (List.mem_filter.mp hx).2
  simpa using this

theorem texts_remove_other (node k : Nat) (hk : k ≠ node) (xs : List Notification) :
    ((xs.filter (fun n => n.node != k)).filter (fun n => n.node == node)) =
      xs.filter (fun n => n.node == node) := by
  rw [List.filter_filter]
  apply List.filter_congr
  intro x _
  by_cases hx : x.node = node
  · have h2 : x.node ≠ k := fun e => hk (e.symm.trans hx)
    have h3 : (x.node != k) = true := by simpa using h2
    rw [h3, Bool.and_true]
  · have h3 : (x.node == node) = false := by simpa using hx
    rw [h3, Bool.false_and]

/-- What one callback does to the texts of the notification `node`. -/
theorem runAction_textsOf (p : Page) (a : TimeoutAction) (node : Nat) :
    (p.runAction a).textsOf node =
      if a = .remove node then [] else p.textsOf node := by
  cases a with
  | startExit k =>
    rw [if_neg (by simp)]
    exact texts_map_eq _ (fun x => by split <;> rfl) (fun x => by split <;> rfl) node p.body
  | remove k =>
    unfold runAction textsOf
    by_cases hk : k = node
    · subst hk
      rw [if_pos rfl]
      show List.map _ (List.filter _ (List.filter _ p.body)) = []
      rw [texts_remove_self]
      rfl
    · rw [if_neg (by simp [hk])]
      show List.map _ (List.filter _ (List.filter _ p.body)) = _
      rw [texts_remove_other node k hk]

/-- What one callback does to the pending timeouts of the notification `node`. -/
theorem runAction_timeoutsOf (p : Page) (a : TimeoutAction) (node : Nat) :
    (p.runAction a).timeoutsOf node =
      if a = .startExit node then
        p.timeoutsOf node ++ [{ due := p.now + 300, action := .remove node }]
      else p.timeoutsOf node := by
  cases a with
  | startExit k =>
    unfold runAction timeoutsOf
    by_cases hk : k = node
    · subst hk
      rw [if_pos rfl]
      simp [List.filter_append, TimeoutAction.node]
    · rw [if_neg (by simp [hk])]
      simp [List.filter_append, TimeoutAction.node, hk]
  | remove k =>
    rw [if_neg (by simp)]
    rfl

/-- What a batch of callbacks does to the notification `node`. -/
theorem foldl_runAction_view (node : Nat) (acts : List TimeoutAction) :
    ∀ p : Page,
      (acts.foldl runAction p).now = p.now ∧
      (acts.foldl runAction p).nextNode = p.nextNode ∧
      (acts.foldl runAction p).textsOf node =
        (if TimeoutAction.remove node ∈ acts then [] else p.textsOf node) ∧
      (acts.foldl runAction p).timeoutsOf node =
        p.timeoutsOf node ++
          List.replicate (acts.count (.startExit node))
            { due := p.now + 300, action := .remove node } := by
  induction acts with
  | nil => intro p; simp
  | cons a acts ih =>
    intro p
    obtain ⟨h1, h2, h3, h4⟩ := ih (p.runAction a)
    simp only [List.foldl_cons]
    refine ⟨h1.trans (runAction_now p a), h2.trans (runAction_nextNode p a), ?_, ?_⟩
    · rw [h3, runAction_textsOf]
      by_cases ha : a = .remove node
      · subst ha; simp
      · have : (TimeoutAction.remove node ∈ a :: acts) ↔ (TimeoutAction.remove node ∈ acts) := by
          rw [List.mem_cons]
          exact ⟨fun h => h.resolve_left (fun e => ha e.symm), Or.inr⟩
        simp only [if_neg ha, this]
    · rw [h4, runAction_timeoutsOf, runAction_now]
      by_cases ha : a = .startExit node
      · subst ha
        rw [if_pos rfl, List.count_cons_self, List.replicate_succ, List.append_assoc]
        rfl
      · rw [if_neg ha, List.count_cons_of_ne (fun e => ha e.symm)]

end Page
namespace Page

theorem count_due_actions (ts : List Timeout) (d : Nat) (a : TimeoutAction) :
    ((ts.filter (fun t => t.due == d)).map (fun t => t.action)).count a =
      ts.count { due := d, action := a } := by
  induction ts with
  | nil => rfl
  | cons t ts ih =>
    obtain ⟨td, ta⟩ := t
    by_cases hd : td = d
    · subst hd
      by_cases ha : ta = a
      · subst ha
        simp [List.filter_cons, ih]
      · have hne : ¬ (({ due := td, action := a } : Timeout) = { due := td, action := ta }) := by
          intro e; injection e with _ e2; exact ha e2.symm
        simp [List.filter_cons, ih, List.count_cons, ha, hne]
    · have hne : ¬ (({ due := d, action := a } : Timeout) = { due := td, action := ta }) := by
        intro e; injection e with e1 _; exact hd e1.symm
      simp [List.filter_cons, hd, ih, List.count_cons, hne]

theorem count_timeoutsOf (p : Page) (node d : Nat) (a : TimeoutAction) (ha : a.node = node) :
    (p.timeoutsOf node).count { due := d, action := a } =
      p.timeouts.count { due := d, action := a } := by
  unfold timeoutsOf
  exact List.count_filter (by simpa using ha)

/-- What one millisecond does to the notification `node`. -/
theorem tickMs_view (p : Page) (node : Nat) :
    p.tickMs.now = p.now + 1 ∧
    p.tickMs.nextNode = p.nextNode ∧
    p.tickMs.textsOf node =
      (if ({ due := p.now + 1, action := .remove node } : Timeout) ∈ p.timeoutsOf node
        then [] else p.textsOf node) ∧
    p.tickMs.timeoutsOf node =
      (p.timeoutsOf node).filter (fun t => t.due != p.now + 1) ++
        List.replicate
          ((p.timeoutsOf node).count { due := p.now + 1, action := .startExit node })
          { due := p.now + 1 + 300, action := .remove node } := by
  obtain ⟨h1, h2, h3, h4⟩ := foldl_runAction_view node
    ((p.timeouts.filter (fun t => t.due == p.now + 1)).map (fun t => t.action))
    { p with now := p.now + 1, timeouts := p.timeouts.filter (fun t => t.due != p.now + 1) }
  refine ⟨h1, h2, ?_, ?_⟩
  · show (List.foldl runAction _ _).textsOf node = _
    rw [h3]
    have hmem : (TimeoutAction.remove node ∈
        (p.timeouts.filter (fun t => t.due == p.now + 1)).map (fun t => t.action)) ↔
        (({ due := p.now + 1, action := .remove node } : Timeout) ∈ p.timeoutsOf node) := by
      rw [← List.count_pos_iff, ← List.count_pos_iff, count_due_actions,
        count_timeoutsOf p node (p.now + 1) (.remove node) rfl]
    simp only [hmem]
    rfl
  · show (List.foldl runAction _ _).timeoutsOf node = _
    rw [h4, count_due_actions, count_timeoutsOf p node (p.now + 1) (.startExit node) rfl]
    congr 1
    unfold timeoutsOf
    simp only [List.filter_filter]
    apply List.filter_congr
    intro x _
    exact Bool.and_comm _ _

theorem showSuccess_view (p : Page) (m : String) (node : Nat) (h : node < p.nextNode) :
    (p.showSuccess m).textsOf node = p.textsOf node ∧
    (p.showSuccess m).timeoutsOf node = p.timeoutsOf node := by
  have hne : ¬ p.nextNode = node := by omega
  unfold showSuccess textsOf timeoutsOf
  simp [List.filter_append, TimeoutAction.node, hne]

theorem showError_view (p : Page) (m : String) (node : Nat) (h : node < p.nextNode) :
    (p.showError m).textsOf node = p.textsOf node ∧
    (p.showError m).timeoutsOf node = p.timeoutsOf node := by
  have hne : ¬ p.nextNode = node := by omega
  unfold showError textsOf timeoutsOf
  simp [List.filter_append, TimeoutAction.node, hne]

theorem Lifetime.life_tickMs {t0 delay node : Nat} {m : String} {p : Page}
    (h : Lifetime t0 delay node m p) : Lifetime t0 delay node m p.tickMs := by
  obtain ⟨hn, hph⟩ := h
  obtain ⟨h1, h2, h3, h4⟩ := tickMs_view p node
  refine ⟨by rw [h2]; exact hn, ?_⟩
  rw [h1, h3, h4]
  rcases hph with ⟨hlt, ht, hto⟩ | ⟨hle, hlt, ht, hto⟩ | ⟨hle, ht, hto⟩
  · rw [ht, hto]
    by_cases hd : p.now + 1 = t0 + delay
    · right; left
      refine ⟨by omega, by omega, by simp, ?_⟩
      simp [hd]
    · left
      have hd' : ¬ (t0 + delay = p.now + 1) := fun e => hd e.symm
      refine ⟨by omega, by simp, ?_⟩
      simp [hd, hd']
  · rw [ht, hto]
    by_cases hd : p.now + 1 = t0 + delay + 300
    · right; right
      refine ⟨by omega, by simp [hd], ?_⟩
      simp [hd]
    · right; left
      have hd' : ¬ (t0 + delay + 300 = p.now + 1) := fun e => hd e.symm
      refine ⟨by omega, by omega, by simp [hd, hd'], ?_⟩
      simp [hd, hd']
  · rw [ht, hto]
    right; right
    exact ⟨by omega, by simp, by simp⟩

theorem Lifetime.life_elapse {t0 delay node : Nat} {m : String} (ms : Nat) :
    ∀ {p : Page}, Lifetime t0 delay node m p → Lifetime t0 delay node m (elapse ms p) := by
  induction ms with
  | zero => intro p h; exact h
  | succ n ih => intro p h; exact ih h.life_tickMs

theorem Lifetime.life_showSuccess {t0 delay node : Nat} {m : String} {p : Page}
    (h : Lifetime t0 delay node m p) (m' : String) :
    Lifetime t0 delay node m (p.showSuccess m') := by
  obtain ⟨hn, hph⟩ := h
  obtain ⟨h1, h2⟩ := showSuccess_view p m' node hn
  refine ⟨by show node < p.nextNode + 1; omega, ?_⟩
  rw [h1, h2]
  exact hph

theorem Lifetime.life_showError {t0 delay node : Nat} {m : String} {p : Page}
    (h : Lifetime t0 delay node m p) (m' : String) :
    Lifetime t0 delay node m (p.showError m') := by
  obtain ⟨hn, hph⟩ := h
  obtain ⟨h1, h2⟩ := showError_view p m' node hn
  refine ⟨by show node < p.nextNode + 1; omega, ?_⟩
  rw [h1, h2]
  exact hph

theorem Lifetime.life_step {t0 delay node : Nat} {m : String} {p : Page}
    (h : Lifetime t0 delay node m p) (e : PageEvent) : Lifetime t0 delay node m (p.step e) := by
  cases e with
  | showSuccess m' => exact h.life_showSuccess m'
  | showError m' => exact h.life_showError m'
  | elapse ms => exact Lifetime.life_elapse ms h

theorem Lifetime.life_run {t0 delay node : Nat} {m : String} (events : List PageEvent) :
    ∀ {p : Page}, Lifetime t0 delay node m p → Lifetime t0 delay node m (p.run events) := by
  induction events with
  | nil => intro p h; exact h
  | cons e es ih => intro p h; exact ih (h.life_step e)

/-- During its life a notification is in the document, with its text, exactly
until 300 ms after its display delay. -/
theorem Lifetime.texts {t0 delay node : Nat} {m : String} {p : Page}
    (h : Lifetime t0 delay node m p) :
    p.textsOf node = if p.now < t0 + delay + 300 then [m] else [] := by
  obtain ⟨_, hph⟩ := h
  rcases hph with ⟨hlt, ht, _⟩ | ⟨_, hlt, ht, _⟩ | ⟨hle, ht, _⟩
  · rw [ht, if_pos (by omega)]
  · rw [ht, if_pos hlt]
  · rw [ht, if_neg (by omega)]

end Page
namespace Page

theorem Fresh.fresh_showSuccess {p : Page} (h : p.Fresh) (m : String) :
    (p.showSuccess m).Fresh := by
  obtain ⟨hb, ht⟩ := h
  constructor
  · intro n hn
    show n.node < p.nextNode + 1
    rcases List.mem_append.mp hn with h1 | h1
    · have := hb n h1; omega
    · simp at h1; subst h1; show p.nextNode < _; omega
  · intro t htm
    show t.action.node < p.nextNode + 1
    rcases List.mem_append.mp htm with h1 | h1
    · have := ht t h1; omega
    · simp at h1; subst h1; show p.nextNode < _; omega

theorem Fresh.fresh_showError {p : Page} (h : p.Fresh) (m : String) :
    (p.showError m).Fresh := by
  obtain ⟨hb, ht⟩ := h
  constructor
  · intro n hn
    show n.node < p.nextNode + 1
    rcases List.mem_append.mp hn with h1 | h1
    · have := hb n h1; omega
    · simp at h1; subst h1; show p.nextNode < _; omega
  · intro t htm
    show t.action.node < p.nextNode + 1
    rcases List.mem_append.mp htm with h1 | h1
    · have := ht t h1; omega
    · simp at h1; subst h1; show p.nextNode < _; omega

theorem Fresh.fresh_runAction {p : Page} (h : p.Fresh) (a : TimeoutAction)
    (ha : a.node < p.nextNode) : (p.runAction a).Fresh := by
  obtain ⟨hb, ht⟩ := h
  cases a with
  | startExit k =>
    constructor
    · intro n hn
      show n.node < p.nextNode
      obtain ⟨x, hx, rfl⟩ := List.mem_map.mp hn
      have := hb x hx
      split <;> exact this
    · intro t htm
      show t.action.node < p.nextNode
      rcases List.mem_append.mp htm with h1 | h1
      · exact ht t h1
      · simp at h1; subst h1; exact ha
  | remove k =>
    constructor
    · intro n hn
      exact hb n (List.mem_filter.mp hn).1
    · exact ht

theorem Fresh.fresh_foldl (acts : List TimeoutAction) :
    ∀ {p : Page}, p.Fresh → (∀ a ∈ acts, a.node < p.nextNode) →
      (acts.foldl runAction p).Fresh := by
  induction acts with
  | nil => intro p h _; exact h
  | cons a acts ih =>
    intro p h hacts
    refine ih (h.fresh_runAction a (hacts a (by simp))) ?_
    intro b hb
    rw [runAction_nextNode]
    exact hacts b (by simp [hb])

theorem Fresh.fresh_tickMs {p : Page} (h : p.Fresh) : p.tickMs.Fresh := by
  obtain ⟨hb, ht⟩ := h
  unfold tickMs
  apply Fresh.fresh_foldl
  · exact ⟨hb, fun t htm => ht t (List.mem_filter.mp htm).1⟩
  · intro a ha
    obtain ⟨t, htm, rfl⟩ := List.mem_map.mp ha
    exact ht t (List.mem_filter.mp htm).1

theorem Fresh.fresh_elapse (ms : Nat) : ∀ {p : Page}, p.Fresh → (elapse ms p).Fresh := by
  induction ms with
  | zero => intro p h; exact h
  | succ n ih => intro p h; exact ih h.fresh_tickMs

theorem Fresh.fresh_run (events : List PageEvent) :
    ∀ {p : Page}, p.Fresh → (p.run events).Fresh := by
  induction events with
  | nil => intro p h; exact h
  | cons e es ih =>
    intro p h
    cases e with
    | showSuccess m => exact ih (h.fresh_showSuccess m)
    | showError m => exact ih (h.fresh_showError m)
    | elapse ms => exact ih (Fresh.fresh_elapse ms h)

theorem fresh_is_fresh : Page.fresh.Fresh :=
  ⟨fun _ h => (by cases h), fun _ h => (by cases h)⟩

theorem textsOf_new (p : Page) (h : p.Fresh) (n : Notification) (hn : n.node = p.nextNode) :
    ((p.body ++ [n]).filter (fun x => x.node == p.nextNode)).map (fun x => x.textContent) =
      [n.textContent] := by
  have h1 : p.body.filter (fun x => x.node == p.nextNode) = [] := by
    apply List.filter_eq_nil_iff.mpr
    intro x hx
    have := h.1 x hx
    simp; omega
  rw [List.filter_append, h1]
  simp [hn]

theorem timeoutsOf_new (p : Page) (h : p.Fresh) (t : Timeout) (ht : t.action.node = p.nextNode) :
    (p.timeouts ++ [t]).filter (fun x => x.action.node == p.nextNode) = [t] := by
  have h1 : p.timeouts.filter (fun x => x.action.node == p.nextNode) = [] := by
    apply List.filter_eq_nil_iff.mpr
    intro x hx
    have := h.2 x hx
    simp; omega
  rw [List.filter_append, h1]
  simp [ht]

/-- Right after `showSuccess` the new notification starts its life with a
display delay of 4000 ms. -/
theorem Lifetime.of_showSuccess (p : Page) (h : p.Fresh) (m : String) :
    Lifetime p.now 4000 p.nextNode m (p.showSuccess m) := by
  refine ⟨by show p.nextNode < p.nextNode + 1; omega, Or.inl ⟨?_, ?_, ?_⟩⟩
  · show p.now < p.now + 4000; omega
  · exact textsOf_new p h _ rfl
  · exact timeoutsOf_new p h _ rfl

/-- Right after `showError` the new notification starts its life with a
display delay of 5000 ms. -/
theorem Lifetime.of_showError (p : Page) (h : p.Fresh) (m : String) :
    Lifetime p.now 5000 p.nextNode m (p.showError m) := by
  refine ⟨by show p.nextNode < p.nextNode + 1; omega, Or.inl ⟨?_, ?_, ?_⟩⟩
  · show p.now < p.now + 5000; omega
  · exact textsOf_new p h _ rfl
  · exact timeoutsOf_new p h _ rfl

theorem elapse_now (ms : Nat) : ∀ p : Page, (elapse ms p).now = p.now + ms := by
  induction ms with
  | zero => intro p; rfl
  | succ n ih =>
    intro p
    show (elapse n p.tickMs).now = _
    rw [ih, (tickMs_view p 0).1]
    omega

theorem run_now (events : List PageEvent) :
    ∀ p : Page, (p.run events).now = p.now + duration events := by
  induction events with
  | nil => intro p; rfl
  | cons e es ih =>
    intro p
    show ((p.step e).run es).now = _
    rw [ih]
    cases e with
    | showSuccess m => rfl
    | showError m => rfl
    | elapse ms =>
      show (elapse ms p).now + _ = _
      rw [elapse_now]
      simp only [duration]
      omega

end Page

/-- C10. On a virtual clock, whatever happened on the page before and
whatever notifications and clock advances follow, the notification created by
`showSuccess(message)` at time `t0` is in the document exactly once, with
exactly that message, at every time before `t0 + 4300` and is not in it at any
time from `t0 + 4300` on; for `showError` the bound is `t0 + 5300`. -/
theorem notification_lifetime (before after : List PageEvent) (message : String) :
    (((Page.fresh.run before).showSuccess message).run after).now =
      (Page.fresh.run before).now + Page.duration after ∧
    (((Page.fresh.run before).showSuccess message).run after).textsOf
        (Page.fresh.run before).nextNode =
      (if Page.duration after < 4300 then [message] else []) ∧
    (((Page.fresh.run before).showError message).run after).now =
      (Page.fresh.run before).now + Page.duration after ∧
    (((Page.fresh.run before).showError message).run after).textsOf
        (Page.fresh.run before).nextNode =
      (if Page.duration after < 5300 then [message] else []) := by
  have hf := Page.Fresh.fresh_run before Page.fresh_is_fresh
  have hs := Page.Lifetime.life_run after (Page.Lifetime.of_showSuccess _ hf message)
  have he := Page.Lifetime.life_run after (Page.Lifetime.of_showError _ hf message)
  have hns := Page.run_now after ((Page.fresh.run before).showSuccess message)
  have hne := Page.run_now after ((Page.fresh.run before).showError message)
  refine ⟨hns, ?_, hne, ?_⟩
  · rw [hs.texts, hns]
    have e : ((Page.fresh.run before).showSuccess message).now = (Page.fresh.run before).now := rfl
    rw [e]
    by_cases h : Page.duration after < 4300
    · rw [if_pos h, if_pos (by omega)]
    · rw [if_neg h, if_neg (by omega)]
  · rw [he.texts, hne]
    have e : ((Page.fresh.run before).showError message).now = (Page.fresh.run before).now := rfl
    rw [e]
    by_cases h : Page.duration after < 5300
    · rw [if_pos h, if_pos (by omega)]
    · rw [if_neg h, if_neg (by omega)]

/-! ## The shared style block of the notifier -/

namespace Page

theorem runAction_styleBlocks (p : Page) (a : TimeoutAction) :
    (p.runAction a).styleBlocks = p.styleBlocks := by
  cases a <;> rfl

theorem foldl_runAction_styleBlocks (acts : List TimeoutAction) :
    ∀ p : Page, (acts.foldl runAction p).styleBlocks = p.styleBlocks := by
  induction acts with
  | nil => intro p; rfl
  | cons a acts ih => intro p; exact (ih (p.runAction a)).trans (runAction_styleBlocks p a)

theorem tickMs_styleBlocks (p : Page) : p.tickMs.styleBlocks = p.styleBlocks := by
  unfold tickMs
  exact foldl_runAction_styleBlocks _ _

theorem elapse_styleBlocks (ms : Nat) : ∀ p : Page, (elapse ms p).styleBlocks = p.styleBlocks := by
  induction ms with
  | zero => intro p; rfl
  | succ n ih => intro p; exact (ih p.tickMs).trans (tickMs_styleBlocks p)

/-- Only `showSuccess` touches the style blocks, and only when there is none. -/
theorem step_styleBlocks (p : Page) (e : PageEvent) :
    (p.step e).styleBlocks =
      match e with
      | .showSuccess _ => if p.styleBlocks = 0 then 1 else p.styleBlocks
      | _ => p.styleBlocks := by
  cases e with
  | showSuccess m =>
    show (if p.styleBlocks = 0 then p.styleBlocks + 1 else p.styleBlocks) = _
    by_cases h : p.styleBlocks = 0
    · rw [if_pos h, if_pos h, h]
    · rw [if_neg h, if_neg h]
  | showError m => rfl
  | elapse ms => exact elapse_styleBlocks ms p

/-- Calls other than `showSuccess` never change the number of style blocks. -/
theorem run_styleBlocks_of_no_success (events : List PageEvent) :
    ∀ p : Page, (∀ e ∈ events, ∀ m, e ≠ .showSuccess m) →
      (p.run events).styleBlocks = p.styleBlocks := by
  induction events with
  | nil => intro p _; rfl
  | cons e es ih =>
    intro p h
    show ((p.step e).run es).styleBlocks = _
    rw [ih _ (fun x hx => h x (by simp [hx])), step_styleBlocks]
    cases e with
    | showSuccess m => exact absurd rfl (h _ (by simp) m)
    | showError m => rfl
    | elapse ms => rfl

/-- Once one style block is there, one it stays. -/
theorem run_styleBlocks_of_one (events : List PageEvent) :
    ∀ p : Page, p.styleBlocks = 1 → (p.run events).styleBlocks = 1 := by
  induction events with
  | nil => intro p h; exact h
  | cons e es ih =>
    intro p h
    show ((p.step e).run es).styleBlocks = 1
    apply ih
    rw [step_styleBlocks]
    cases e with
    | showSuccess m => show (if p.styleBlocks = 0 then 1 else p.styleBlocks) = 1; rw [h]; rfl
    | showError m => exact h
    | elapse ms => exact h

end Page

/-- C11, the code at the failing input: on a document with no notification
style block a first call of `showError` injects none, and neither does any
number of further `showError` calls; the block appears with the first
`showSuccess`, at whatever position it comes, and is never duplicated. -/
theorem showError_injects_no_style_block :
    (Page.fresh.run [.showError "X"]).styleBlocks = 0 ∧
    (Page.fresh.run [.showError "X", .showError "Y"]).styleBlocks = 0 ∧
    (Page.fresh.run [.showError "X", .showSuccess "Y"]).styleBlocks = 1 ∧
    (Page.fresh.run [.showSuccess "X", .showError "Y", .showSuccess "Z"]).styleBlocks = 1 ∧
    (∀ events : List PageEvent, (∀ e ∈ events, ∀ m, e ≠ .showSuccess m) →
      (Page.fresh.run events).styleBlocks = 0) ∧
    (∀ (before after : List PageEvent) (message : String),
      (∀ e ∈ before, ∀ m, e ≠ .showSuccess m) →
      (Page.fresh.run (before ++ .showSuccess message :: after)).styleBlocks = 1) := by
  refine ⟨by decide, by decide, by decide, by decide, ?_, ?_⟩
  · intro events h
    exact Page.run_styleBlocks_of_no_success events Page.fresh h
  · intro before after message h
    have h0 := Page.run_styleBlocks_of_no_success before Page.fresh h
    have e : Page.fresh.run (before ++ .showSuccess message :: after) =
        ((Page.fresh.run before).showSuccess message).run after := by
      unfold Page.run
      rw [List.foldl_append]
      rfl
    rw [e]
    apply Page.run_styleBlocks_of_one
    show (if (Page.fresh.run before).styleBlocks = 0 then _ else _) = 1
    rw [h0]
    rfl

/-! ## The mobile menu -/

namespace MobileMenu

theorem close_eq (m : MobileMenu) : m.close = closed := rfl

theorem agree_closed : closed.Agree := ⟨rfl, rfl⟩

/-- Whatever the state before, the hamburger listener leaves the three
indicators in agreement, on the opposite of the menu indicator. -/
theorem hamburgerListener_eq (m : MobileMenu) :
    m.hamburgerListener =
      if m.navMenuActive then closed
      else { navMenuActive := true, hamburgerActive := true, ariaExpanded := "true" } := by
  unfold hamburgerListener
  cases m.navMenuActive <;> rfl

theorem click_hamburger (m : MobileMenu) : m.click .hamburger = m.hamburgerListener := rfl

theorem click_navLink (m : MobileMenu) : m.click .navLink = closed := rfl

theorem click_outside (m : MobileMenu) : m.click .outside = closed := rfl

theorem click_menu (m : MobileMenu) : m.click .menu = m := rfl

theorem agree_click {m : MobileMenu} (h : m.Agree) (target : ClickTarget) :
    (m.click target).Agree := by
  cases target with
  | hamburger =>
    rw [click_hamburger, hamburgerListener_eq]
    cases m.navMenuActive
    · exact ⟨rfl, rfl⟩
    · exact agree_closed
  | navLink => rw [click_navLink]; exact agree_closed
  | menu => rw [click_menu]; exact h
  | outside => rw [click_outside]; exact agree_closed

theorem agree_clicks (targets : List ClickTarget) :
    ∀ {m : MobileMenu}, m.Agree → (m.clicks targets).Agree := by
  induction targets with
  | nil => intro m h; exact h
  | cons t ts ih => intro m h; exact ih (agree_click h t)

end MobileMenu

/-- C12. From the closed state, after every sequence of clicks on the
hamburger, on navigation links, elsewhere in the menu and outside, the active
indicator of the menu, the active indicator of the hamburger and the
`aria-expanded` flag agree: all open or all closed.  A further hamburger click
flips that common state; a navigation-link click or an outside click leaves
the menu closed. -/
theorem mobile_menu_indicators_agree (targets : List ClickTarget) :
    (MobileMenu.closed.clicks targets).hamburgerActive =
      (MobileMenu.closed.clicks targets).navMenuActive ∧
    (MobileMenu.closed.clicks targets).ariaExpanded =
      (if (MobileMenu.closed.clicks targets).navMenuActive then "true" else "false") ∧
    ((MobileMenu.closed.clicks targets).click .hamburger).navMenuActive =
      !(MobileMenu.closed.clicks targets).navMenuActive ∧
    ((MobileMenu.closed.clicks targets).click .hamburger).hamburgerActive =
      !(MobileMenu.closed.clicks targets).hamburgerActive ∧
    ((MobileMenu.closed.clicks targets).click .hamburger).ariaExpanded =
      (if (MobileMenu.closed.clicks targets).navMenuActive then "false" else "true") ∧
    (MobileMenu.closed.clicks targets).click .navLink = MobileMenu.closed ∧
    (MobileMenu.closed.clicks targets).click .outside = MobileMenu.closed := by
  obtain ⟨h1, h2⟩ := MobileMenu.agree_clicks targets MobileMenu.agree_closed
  generalize MobileMenu.closed.clicks targets = m at h1 h2 ⊢
  refine ⟨h1, h2, ?_, ?_, ?_, rfl, rfl⟩
  · rw [MobileMenu.click_hamburger, MobileMenu.hamburgerListener_eq]
    cases m.navMenuActive <;> rfl
  · rw [MobileMenu.click_hamburger, MobileMenu.hamburgerListener_eq, h1]
    cases m.navMenuActive <;> rfl
  · rw [MobileMenu.click_hamburger, MobileMenu.hamburgerListener_eq]
    cases m.navMenuActive <;> rfl

end TrustCare
